import Mathlib

/-!
Verification model of the cornerstone3D-beta planar freehand ROI tool and its
frame-of-reference-specific annotation store.

The definitions below are shallow embeddings of the TypeScript source:
* the contour draw loop (`mouseDragDrawCallback`, `mouseUpDrawCallback`,
  `applyCreateOnCross`, `completeDrawClosedContour`, `completeDrawOpenContour`,
  `removeCrossedLinesOnCompleteDraw`, `findCrossingIndexDuringCreate`);
* the store `FrameOfReferenceSpecificAnnotationManager` (add/remove/get,
  `getFramesOfReference`, `saveAnnotations`/`restoreAnnotations`, the
  IMAGE_VOLUME_MODIFIED handler);
* `drawRect` attribute computation.

Canvas points are pairs of rationals, world points triples of rationals.
JavaScript exceptions (property access on `undefined`) are modelled with
`Except String`.  Deep-copy/aliasing behaviour of `lodash.clonedeep` is
modelled with an addressed object-tree (`JVal`) in which every mutable
object carries a heap address; `cloneV` re-addresses the whole tree, a
faithful rendering of "recursive copy into fresh allocations".
-/

namespace CS3D

/-- Canvas-space point (rational coordinates). -/
abbrev P2 := ℚ × ℚ

/-- World-space point (rational coordinates). -/
abbrev P3 := ℚ × ℚ × ℚ

/-- Origin used as the JavaScript-style default for out-of-range indexing. -/
def z2 : P2 := (0, 0)

/-- World-space origin default. -/
def z3 : P3 := (0, 0, 0)

/-- Componentwise difference of world points (gl-matrix `vec3.subtract`). -/
def sub3 (u v : P3) : P3 := (u.1 - v.1, u.2.1 - v.2.1, u.2.2 - v.2.2)

/-- Dot product of world vectors (gl-matrix `vec3.dot`). -/
def dot3 (u v : P3) : ℚ := u.1 * v.1 + u.2.1 * v.2.1 + u.2.2 * v.2.2

/-- The per-viewport data the draw loop reads: the canvas-to-world projection
and the sub-pixel spacing context `{spacing, xDir, yDir}` produced by
`getSubPixelSpacingAndXYDirections`. -/
structure DrawModel where
  c2w : P2 → P3
  xDir : P3
  yDir : P3
  sp : ℚ × ℚ

/-- Modelled from the spec: `computeSpacingAndAxes` (the source file
`getSubPixelSpacingAndXYDirections` is not part of the provided sources):
"derives the minimum world-space step size per screen axis from image voxel
spacing and the configured sub-pixel resolution"; the spec scenario pins
voxel spacing (1,1) with subPixelResolution 4 to a minimum step of 1/4. -/
def subPixelSpacing (voxel : ℚ × ℚ) (subPixelRes : ℕ) : ℚ × ℚ :=
  (voxel.1 / subPixelRes, voxel.2 / subPixelRes)

/-- World-space distances of the motion from `a` to `b` measured along the
viewport x and y directions, as computed in `mouseDragDrawCallback`. -/
def axisDists (m : DrawModel) (a b : P2) : ℚ × ℚ :=
  let d := sub3 (m.c2w b) (m.c2w a)
  (|dot3 d m.xDir|, |dot3 d m.yDir|)

/-- Linear interpolation in canvas space: the point a fraction `i / n` of the
way from `a` to `b`. -/
def interp2 (a b : P2) (n i : ℕ) : P2 :=
  (a.1 + (i / n : ℚ) * (b.1 - a.1), a.2 + (i / n : ℚ) * (b.2 - a.2))

/-- Modelled from the spec: the point count of `insertSampledPoints`
(`addCanvasPointsToArray` is not part of the provided sources): points are
inserted between the last recorded point and the new point at spacing-derived
steps; the spec scenario (one recorded point for a 0.3 move at step 0.25)
pins the count to `max ⌊xDist/sx⌋ ⌊yDist/sy⌋`. -/
def numToAdd (m : DrawModel) (a b : P2) : ℕ :=
  let d := axisDists m a b
  max (⌊d.1 / m.sp.1⌋.toNat) (⌊d.2 / m.sp.2⌋.toNat)

/-- Modelled from the spec: the points `insertSampledPoints` appends to the
buffer when the new point `target` is recorded: `numToAdd` evenly interpolated
points from the last recorded point, the final one being `target` itself. -/
def sampledTo (m : DrawModel) (pts : List P2) (target : P2) : List P2 :=
  let a := pts.getLastD z2
  let n := numToAdd m a target
  (List.range n).map fun i => interp2 a target n (i + 1)

/-- Effect of `addCanvasPointsToArray` on the buffer: append the sampled
points leading to `target`. -/
def addPointsTo (m : DrawModel) (pts : List P2) (target : P2) : List P2 :=
  pts ++ sampledTo m pts target

/-- Cross product orientation test for three canvas points. -/
def cross2 (o a b : P2) : ℚ :=
  (a.1 - o.1) * (b.2 - o.2) - (a.2 - o.2) * (b.1 - o.1)

/-- Modelled from the spec: proper intersection of segments `(p1,p2)` and
`(q1,q2)` (`segmentsIntersect`, whose source is not among the provided files:
"returns the index of the first polyline segment that properly intersects the
query segment"): each segment strictly separates the other's endpoints. -/
def segsProperlyCross (p1 p2 q1 q2 : P2) : Bool :=
  decide (cross2 p1 p2 q1 * cross2 p1 p2 q2 < 0) &&
    decide (cross2 q1 q2 p1 * cross2 q1 q2 p2 < 0)

/-- Index of the first segment of the open polyline `pts` that properly
crosses the query segment `(a, b)`, scanning in sequence order. -/
def firstCrossIdx (pts : List P2) (a b : P2) : Option ℕ :=
  (List.zip pts pts.tail).findIdx? fun s => segsProperlyCross s.1 s.2 a b

/-- Modelled from the spec: `getFirstIntersectionWithPolyline` (closed flag
false) returns the pair of point indices `[i, i+1]` delimiting the first
properly intersected segment, or none. -/
def getFirstIntersectionWithPolyline (pts : List P2) (a b : P2) :
    Option (ℕ × ℕ) :=
  (firstCrossIdx pts a b).map fun i => (i, i + 1)

/-- The transient draw state of the tool instance: the canvas-point buffer of
`drawData`, the `polylineIndex` cursor, the interaction flags, and the data
fields of the annotation being built (`data.polyline`, `data.isOpenContour`,
`data.handles.points`). -/
structure DrawState where
  buffer : List P2
  polylineIndex : ℕ
  isDrawing : Bool
  isEditingClosed : Bool
  polyline : List P3
  isOpenContour : Bool
  handles : List P3

/-- `findCrossingIndexDuringCreate`: the whole last mouse move (from the
event's `lastPoints` to `currentPoints`) is tested against the buffer minus
its final point; the returned value is the first index of the crossed
segment. -/
def findCrossingIndexDuringCreate (buffer : List P2) (cur lastPt : P2) :
    Option ℕ :=
  (getFirstIntersectionWithPolyline buffer.dropLast cur lastPt).map (·.1)

/-- `removeCrossedLinesOnCompleteDraw`: test the end-to-start chord against
the buffer minus both ends; on a crossing at `[i, i+1]` keep only the first
`i+1` points (`splice(0, lineSegment[1])`). -/
def removeCrossedLinesOnCompleteDraw (pts : List P2) : List P2 :=
  let inner := pts.dropLast.drop 1
  match getFirstIntersectionWithPolyline inner (pts.headD z2) (pts.getLastD z2) with
  | some s => pts.take s.2
  | none => pts

/-- `completeDrawClosedContour`: trim residual crossings, close the loop by
sampling points back to the first buffer point, pop the duplicated closing
point, world-project, set `isOpenContour` false, clear the draw data and
leave the Drawing state. -/
def completeDrawClosedContour (m : DrawModel) (st : DrawState) : DrawState :=
  let pts1 := removeCrossedLinesOnCompleteDraw st.buffer
  let pts2 := (addPointsTo m pts1 (pts1.headD z2)).dropLast
  { st with
    buffer := []
    isDrawing := false
    polyline := pts2.map m.c2w
    isOpenContour := false }

/-- `completeDrawOpenContour`: world-project the buffer, set `isOpenContour`
true, expose the first and last world points as handles, clear the draw data
and leave the Drawing state. -/
def completeDrawOpenContour (m : DrawModel) (st : DrawState) : DrawState :=
  let wp := st.buffer.map m.c2w
  { st with
    buffer := []
    isDrawing := false
    polyline := wp
    isOpenContour := true
    handles := [wp.headD z3, wp.getLastD z3] }

/-- The buffer-truncation step of `applyCreateOnCross`: append sampled points
up to the point at the crossing index, pop the duplicated last point, then
shift off the first `k` points. -/
def truncateOnCross (m : DrawModel) (pts : List P2) (k : ℕ) : List P2 :=
  ((addPointsTo m pts (pts.getD k z2)).dropLast).drop k

/-- `applyCreateOnCross`: truncate the buffer at the crossing, complete the
contour as closed, then start a closed-contour edit session.  The final step
models `activateClosedContourEdit` (whose source file is not provided) by the
spec's words: "immediately transition into EditingClosed". -/
def applyCreateOnCross (m : DrawModel) (st : DrawState) (k : ℕ) : DrawState :=
  let st1 := completeDrawClosedContour m { st with buffer := truncateOnCross m st.buffer k }
  { st1 with isEditingClosed := true }

/-- `mouseDragDrawCallback`: ignore the sample if it has moved at most one
sub-pixel spacing step along both axes from the last recorded buffer point;
otherwise auto-close on a detected crossing or append the sampled points. -/
def mouseDragDrawCallback (m : DrawModel) (st : DrawState) (cur lastPt : P2) :
    DrawState :=
  let lastRecorded := st.buffer.getLastD z2
  let d := axisDists m lastRecorded cur
  if d.1 ≤ m.sp.1 ∧ d.2 ≤ m.sp.2 then st
  else
    match findCrossingIndexDuringCreate st.buffer cur lastPt with
    | some k => applyCreateOnCross m st k
    | none =>
        { st with
          buffer := addPointsTo m st.buffer cur
          polylineIndex := st.polylineIndex + (sampledTo m st.buffer cur).length }

/-- The minimum point count demanded by `mouseUpDrawCallback`:
`Math.max(subPixelResolution * 3, 3)`. -/
def minPoints (subPixelRes : ℕ) : ℕ := max (subPixelRes * 3) 3

/-- Modelled from the spec: `withinCloseProximity`
(`pointsAreWithinCloseContourProximity` is not among the provided sources) is
a Euclidean distance test, rendered here on squared distances. -/
def withinProximity (a b : P2) (tol : ℚ) : Bool :=
  decide ((a.1 - b.1) ^ 2 + (a.2 - b.2) ^ 2 ≤ tol ^ 2)

/-- A viewport model with the identity plane embedding, axis-aligned
directions and unit spacing. -/
def mUnit : DrawModel :=
  { c2w := fun p => (p.1, p.2, 0), xDir := (1, 0, 0), yDir := (0, 1, 0), sp := (1, 1) }

/-- The spec scenario viewport: voxel spacing (1,1) with subPixelResolution
4, hence minimum step 1/4 along each axis. -/
def mQuarter : DrawModel :=
  { c2w := fun p => (p.1, p.2, 0), xDir := (1, 0, 0), yDir := (0, 1, 0),
    sp := subPixelSpacing (1, 1) 4 }

/-- A fresh Drawing-state with the given buffer. -/
def stDrawing (buf : List P2) : DrawState :=
  { buffer := buf, polylineIndex := 0, isDrawing := true, isEditingClosed := false,
    polyline := [], isOpenContour := false, handles := [] }

/-- `activateDraw`: a drag session starts in the Drawing state with the
mouse-down canvas point as the only buffered point. -/
def activateDraw (p : P2) : DrawState := stDrawing [p]

/-- A complete drag phase of the draw loop: the mouse-down activation
followed by the event samples (each a `(currentPoints, lastPoints)` canvas
pair) fed in order through `mouseDragDrawCallback`. -/
def dragRun (m : DrawModel) (p0 : P2) (samples : List (P2 × P2)) : DrawState :=
  samples.foldl (fun st s => mouseDragDrawCallback m st s.1 s.2)
    (activateDraw p0)

/-- The canvas-to-world projection of a viewport is an affine plane
embedding: it commutes with canvas-space linear interpolation.  This is a
property of `viewport.canvasToWorld`, which applies a fixed linear map plus
an offset to the canvas coordinates. -/
def AffineC2W (g : P2 → P3) : Prop :=
  ∀ (a b : P2) (s : ℚ),
    g (a.1 + s * (b.1 - a.1), a.2 + s * (b.2 - a.2)) =
      ((g a).1 + s * ((g b).1 - (g a).1),
        (g a).2.1 + s * ((g b).2.1 - (g a).2.1),
        (g a).2.2 + s * ((g b).2.2 - (g a).2.2))

/-- Consecutive buffer points sit at least one sub-pixel spacing step apart
along some viewport axis.  This is the separation `mouseDragDrawCallback`
maintains between recorded points: the guard only lets a sample through once
it has moved beyond one step, and sampled insertion divides that motion into
steps no smaller than the spacing along the dominant axis. -/
def BigSteps (m : DrawModel) (pts : List P2) : Prop :=
  pts.Chain' fun p q =>
    m.sp.1 ≤ (axisDists m p q).1 ∨ m.sp.2 ≤ (axisDists m p q).2

/-- A concrete buffer for the crossing analysis: a tail along y = 2
followed by three sides of a square; the drag from (1,4) to (2,1) crosses
the segment at index 1. -/
def ptsCross : List P2 := [(-1, 2), (1, 2), (3, 2), (3, 4), (1, 4)]

/-- Annotation metadata as used by the store: the owning frame of reference
and tool kind. -/
structure AnnMeta where
  forUID : String
  toolName : String
deriving DecidableEq, Repr

/-- A stored annotation record: its unique identifier, its metadata, and the
optional `invalidated` flag (`none` models a JavaScript `undefined` field). -/
structure Annot where
  uid : String
  metadata : AnnMeta
  invalidated : Option Bool
deriving DecidableEq, Repr

instance : Inhabited Annot := ⟨⟨"", ⟨"", ""⟩, none⟩⟩

/-- A JavaScript object rendered as an insertion-ordered association list. -/
abbrev Assoc (α : Type) := List (String × α)

/-- The two-level `annotations` structure: frame-of-reference identifier to
tool kind to ordered annotation list. -/
abbrev FrameDict := Assoc (List Annot)

/-- The full `AnnotationState` owned by the manager. -/
abbrev AnnState := Assoc FrameDict

/-- Property read `o[k]` on an object modelled as an association list. -/
def assocFind {α : Type} (l : Assoc α) (k : String) : Option α :=
  match l with
  | [] => none
  | (k', v) :: t => if k' = k then some v else assocFind t k

/-- Property write `o[k] = v`: replaces the value in place when the key
exists, otherwise appends the key (JavaScript insertion-order semantics). -/
def assocSet {α : Type} (l : Assoc α) (k : String) (v : α) : Assoc α :=
  match l with
  | [] => [(k, v)]
  | (k', v') :: t => if k' = k then (k, v) :: t else (k', v') :: assocSet t k v

/-- Property deletion `delete o[k]`: removes the first entry with that key. -/
def assocErase {α : Type} (l : Assoc α) (k : String) : Assoc α :=
  match l with
  | [] => []
  | (k', v') :: t => if k' = k then t else (k', v') :: assocErase t k

/-- In-place update of the value stored under an existing key. -/
def assocUpdate {α : Type} (l : Assoc α) (k : String) (g : α → α) : Assoc α :=
  match l with
  | [] => []
  | (k', v') :: t => if k' = k then (k', g v') :: t else (k', v') :: assocUpdate t k g

/-- `getFramesOfReference`: `Object.keys(this.annotations)`. -/
def getFramesOfReference (s : AnnState) : List String := s.map Prod.fst

/-- The identifiers stored in one tool bucket. -/
def bucketUids (b : List Annot) : List String := b.map (·.uid)

/-- The identifiers stored under one frame's dictionary. -/
def fdUids (fd : FrameDict) : List String := (fd.map fun p => bucketUids p.2).flatten

/-- All annotation identifiers stored in the manager. -/
def allUids (s : AnnState) : List String := (s.map fun p => fdUids p.2).flatten

/-- Store well-formedness maintained by add/remove in ordinary operation: no
tool bucket is kept empty. -/
def NoEmptyBuckets (s : AnnState) : Prop :=
  ∀ p ∈ s, ∀ q ∈ p.2, q.2 ≠ ([] : List Annot)

/-- `addAnnotation`: create the frame-of-reference and tool buckets if
missing, then push the annotation at the end of its tool bucket. -/
def addAnnot (s : AnnState) (a : Annot) : AnnState :=
  let f := a.metadata.forUID
  let t := a.metadata.toolName
  let fd := (assocFind s f).getD []
  let b := (assocFind fd t).getD []
  assocSet s f (assocSet fd t (b ++ [a]))

/-- The optional `filter` argument of the lookup/removal operations. -/
structure AnnFilter where
  forUID : Option String
  toolName : Option String

/-- The filter `{}`. -/
def noFilter : AnnFilter := ⟨none, none⟩

/-- A located annotation: its frame key, tool key, the containing bucket and
the index within it. -/
structure AnnLoc where
  frame : String
  tool : String
  bucket : List Annot
  idx : ℕ

/-- The inner loop of `_getToolSpecificAnnotationsAndIndex` over one frame's
dictionary.  When the filter names a tool absent from the dictionary the
JavaScript code calls `findIndex` on `undefined`, a TypeError. -/
def locateInFrame (fd : FrameDict) (uid : String) (tFlt : Option String) :
    Except String (Option (String × List Annot × ℕ)) :=
  match tFlt with
  | some t =>
    match assocFind fd t with
    | none => .error "TypeError"
    | some b =>
      match b.findIdx? (fun a => a.uid = uid) with
      | some i => .ok (some (t, b, i))
      | none => .ok none
  | none =>
    match fd with
    | [] => .ok none
    | (t, b) :: rest =>
      match b.findIdx? (fun a => a.uid = uid) with
      | some i => .ok (some (t, b, i))
      | none => locateInFrame rest uid tFlt

/-- Scan of the frame dictionaries in key order, used when the filter names
no frame of reference. -/
def locateScan (s : AnnState) (uid : String) (tFlt : Option String) :
    Except String (Option AnnLoc) :=
  match s with
  | [] => .ok none
  | (f, fd) :: rest =>
    match locateInFrame fd uid tFlt with
    | .error e => .error e
    | .ok (some (t, b, i)) => .ok (some ⟨f, t, b, i⟩)
    | .ok none => locateScan rest uid tFlt

/-- `_getToolSpecificAnnotationsAndIndex`: returns the bucket and index of
the annotation with the given identifier, scoped by the filter.  A filter
naming a frame of reference absent from the store makes the JavaScript code
dereference `undefined` (either `Object.keys(undefined)` or
`undefined[toolName]`), a TypeError. -/
def locateAnnot (s : AnnState) (uid : String) (flt : AnnFilter) :
    Except String (Option AnnLoc) :=
  match flt.forUID with
  | some f =>
    match assocFind s f with
    | none => .error "TypeError"
    | some fd =>
      (locateInFrame fd uid flt.toolName).map
        (Option.map fun r => ⟨f, r.1, r.2.1, r.2.2⟩)
  | none => locateScan s uid flt.toolName

/-- `getAnnotation`: `toolSpecificAnnotations[index]` of the located record,
or `undefined` when the search misses. -/
def getAnnot (s : AnnState) (uid : String) (flt : AnnFilter) :
    Except String (Option Annot) :=
  (locateAnnot s uid flt).map (Option.map fun r => r.bucket.getD r.idx default)

/-- `removeAnnotation`: a silent no-op on a miss; otherwise splice out the
located index and, if the bucket became empty, delete the tool bucket named
by the metadata of the bucket's first element.  The frame bucket itself is
not deleted. -/
def removeAnnot (s : AnnState) (uid : String) (flt : AnnFilter) :
    Except String AnnState :=
  match locateAnnot s uid flt with
  | .error e => .error e
  | .ok none => .ok s
  | .ok (some r) =>
    let md := (r.bucket.headD default).metadata
    let b' := r.bucket.eraseIdx r.idx
    if b'.isEmpty then
      match assocFind s md.forUID with
      | none => .error "TypeError"
      | some fd => .ok (assocSet s md.forUID (assocErase fd md.toolName))
    else
      .ok (assocSet s r.frame (assocSet ((assocFind s r.frame).getD []) r.tool b'))

/-- The per-annotation effect of `_imageVolumeModifiedHandler`: set
`invalidated` to true when the field is already defined. -/
def invalidateAnn (a : Annot) : Annot :=
  if a.invalidated ≠ none then { a with invalidated := some true } else a

/-- `_imageVolumeModifiedHandler` for a frame of reference: if the frame has
a dictionary, mark every annotation of every tool bucket under it. -/
def onVolumeModified (s : AnnState) (f : String) : AnnState :=
  match assocFind s f with
  | none => s
  | some _ =>
    assocUpdate s f fun fd => fd.map fun p => (p.1, p.2.map invalidateAnn)

/-- `mouseUpDrawCallback`: a release with fewer than
`max(subPixelResolution * 3, 3)` buffered points aborts the draw, removing
the shell annotation from the store and leaving the Drawing state; otherwise
the contour is completed open or closed according to `allowOpenContours` and
the close-proximity test.  The committed annotation record was added to the
store at draw start, so completion leaves the store's bucket structure
untouched. -/
def mouseUpDrawCallback (m : DrawModel) (allowOpenContours : Bool)
    (closeContourProximity : ℚ) (subPixelRes : ℕ) (st : DrawState)
    (store : AnnState) (uid : String) : DrawState × Except String AnnState :=
  if st.buffer.length < minPoints subPixelRes then
    ({ st with isDrawing := false, buffer := [] }, removeAnnot store uid noFilter)
  else if allowOpenContours &&
      !(withinProximity (st.buffer.headD z2) (st.buffer.getLastD z2)
        closeContourProximity) then
    (completeDrawOpenContour m st, .ok store)
  else
    (completeDrawClosedContour m st, .ok store)

/-- Structural deep copy of an annotation record (field-by-field rebuild, the
pure-value content of `lodash.clonedeep`). -/
def cloneAnn (a : Annot) : Annot :=
  ⟨a.uid, ⟨a.metadata.forUID, a.metadata.toolName⟩, a.invalidated⟩

/-- Structural deep copy of the full `AnnotationState` (pure-value content of
`cloneDeep`; the aliasing content is modelled separately on `JVal`). -/
def cloneDeepP (s : AnnState) : AnnState :=
  s.map fun p => (p.1, p.2.map fun q => (q.1, q.2.map cloneAnn))

/-- `saveAnnotations()` with no arguments: a deep copy of the whole state. -/
def saveAnnotsAll (s : AnnState) : AnnState := cloneDeepP s

/-- `restoreAnnotations(state)` with no filter: replace the entire
`annotations` member with a deep copy of the argument. -/
def restoreAnnotsAll (_s : AnnState) (data : AnnState) : AnnState :=
  cloneDeepP data

/-- `restoreAnnotations(state, FrameOfReferenceUID)`: wholesale replacement
of one frame's dictionary with the caller's object (no copy is taken). -/
def restoreAnnotsFrame (s : AnnState) (data : FrameDict) (f : String) :
    AnnState :=
  assocSet s f data

/-- `restoreAnnotations(state, FrameOfReferenceUID, toolName)`: wholesale
replacement of one tool bucket with the caller's array (no copy is taken),
creating the frame dictionary if absent. -/
def restoreAnnotsFrameTool (s : AnnState) (data : List Annot)
    (f t : String) : AnnState :=
  let fd := (assocFind s f).getD []
  assocSet s f (assocSet fd t data)

/-- A JavaScript value as an addressed object tree: primitives carry their
printed form, every object carries the address of its heap cell together
with its insertion-ordered fields.  Two values share mutable structure
exactly when they contain a common address. -/
inductive JVal where
  | prim (s : String)
  | node (a : ℕ) (cs : List (String × JVal))

/-- The pure shape of a JavaScript value with the heap addresses erased;
deep-equality of values is equality of their shapes. -/
inductive PVal where
  | prim (s : String)
  | node (cs : List (String × PVal))

mutual

/-- All heap addresses occurring in a value. -/
def addrsV : JVal → List ℕ
  | .prim _ => []
  | .node a cs => a :: addrsF cs

/-- All heap addresses occurring in a field list. -/
def addrsF : List (String × JVal) → List ℕ
  | [] => []
  | (_, v) :: t => addrsV v ++ addrsF t

end

mutual

/-- Shape of a value (addresses erased). -/
def eraseV : JVal → PVal
  | .prim s => .prim s
  | .node _ cs => .node (eraseF cs)

/-- Shape of a field list. -/
def eraseF : List (String × JVal) → List (String × PVal)
  | [] => []
  | (k, v) :: t => (k, eraseV v) :: eraseF t

end

mutual

/-- `lodash.clonedeep`: a recursive structural copy in which every object is
re-allocated.  Freshness of the new cells is modelled by shifting every
address by `k`; taking `k` above every live address makes all the copy's
addresses new. -/
def cloneV (k : ℕ) : JVal → JVal
  | .prim s => .prim s
  | .node a cs => .node (a + k) (cloneF k cs)

/-- Deep copy of a field list. -/
def cloneF (k : ℕ) : List (String × JVal) → List (String × JVal)
  | [] => []
  | (f, v) :: t => (f, cloneV k v) :: cloneF k t

end

mutual

/-- Heap mutation: replace the field list of the object stored at address
`a`, wherever that cell occurs. -/
def setAtV (a : ℕ) (g : List (String × JVal) → List (String × JVal)) :
    JVal → JVal
  | .prim s => .prim s
  | .node b cs => if b = a then .node b (g cs) else .node b (setAtF a g cs)

/-- Heap mutation within a field list. -/
def setAtF (a : ℕ) (g : List (String × JVal) → List (String × JVal)) :
    List (String × JVal) → List (String × JVal)
  | [] => []
  | (f, v) :: t => (f, setAtV a g v) :: setAtF a g t

end

/-- Field read `o[k]` on an addressed object. -/
def objGet (o : JVal) (k : String) : Option JVal :=
  match o with
  | .prim _ => none
  | .node _ cs => assocFind cs k

/-- Field write `o[k] = v` on an addressed object. -/
def objSet (o : JVal) (k : String) (v : JVal) : JVal :=
  match o with
  | .prim s => .prim s
  | .node a cs => .node a (assocSet cs k v)

/-- `saveAnnotations()` at the heap level: `cloneDeep(this.annotations)`
with cells re-allocated above `k`. -/
def saveAnnotsHeap (store : JVal) (k : ℕ) : JVal := cloneV k store

/-- `restoreAnnotations(state, FrameOfReferenceUID)` at the heap level: the
frame key is assigned the caller's object itself, no copy is taken. -/
def restoreAnnotsFrameHeap (store data : JVal) (f : String) : JVal :=
  objSet store f data

/-- `restoreAnnotations(state, FrameOfReferenceUID, toolName)` at the heap
level: the frame's dictionary object is fetched (or first created as a fresh
empty object, at address `k`, when the frame key is absent) and the caller's
array itself is assigned under its tool key; no copy is taken. -/
def restoreAnnotsFrameToolHeap (store data : JVal) (f t : String) (k : ℕ) :
    JVal :=
  match objGet store f with
  | some fd => objSet store f (objSet fd t data)
  | none => objSet store f (objSet (.node k []) t data)

/-- The resolved options of `drawRect` after `Object.assign` with the
defaults: `color` dodgerblue, `width` "2", `lineWidth` and `lineDash`
undefined. -/
structure RectOpts where
  color : Option String
  width : Option String
  lineWidth : Option String
  lineDash : Option String

/-- The SVG attribute set computed by `drawRect`: the top-left-hand corner is
the componentwise minimum of the two corner points and the extent the
componentwise absolute difference. -/
structure RectAttrs where
  x : ℚ
  y : ℚ
  width : ℚ
  height : ℚ
  stroke : String
  fill : String
  strokeWidth : String
  dasharray : Option String
deriving DecidableEq

/-- `drawRect` attribute computation for corner points `start` and `e`
(`strokeWidth = lineWidth || width`, with the JavaScript falsy empty
string falling back to `width`). -/
def drawRectAttrs (start e : P2) (opts : RectOpts) : RectAttrs :=
  let color := opts.color.getD "dodgerblue"
  let widthOpt := opts.width.getD "2"
  let strokeWidth :=
    match opts.lineWidth with
    | some s => if s = "" then widthOpt else s
    | none => widthOpt
  { x := min start.1 e.1
    y := min start.2 e.2
    width := |start.1 - e.1|
    height := |start.2 - e.2|
    stroke := color
    fill := "transparent"
    strokeWidth := strokeWidth
    dasharray := opts.lineDash }

/-! Association-list lemmas mirroring JavaScript object key semantics. -/

section AssocLemmas

variable {α : Type}

theorem assocFind_set_self (l : Assoc α) (k : String) (v : α) :
    assocFind (assocSet l k v) k = some v := by
  induction l with
  | nil => simp [assocSet, assocFind]
  | cons p t ih =>
    obtain ⟨k', v'⟩ := p
    by_cases h : k' = k <;> simp [assocSet, assocFind, h, ih]

theorem assocFind_set_ne (l : Assoc α) {k k' : String} (v : α) (h : k' ≠ k) :
    assocFind (assocSet l k v) k' = assocFind l k' := by
  induction l with
  | nil => simp [assocSet, assocFind, Ne.symm h]
  | cons p t ih =>
    obtain ⟨k'', v''⟩ := p
    by_cases h2 : k'' = k <;>
      simp [assocSet, assocFind, h2, ih, Ne.symm h]

theorem assocSet_eq_self {l : Assoc α} {k : String} {v : α}
    (h : assocFind l k = some v) : assocSet l k v = l := by
  induction l with
  | nil => simp [assocFind] at h
  | cons p t ih =>
    obtain ⟨k', v'⟩ := p
    by_cases h2 : k' = k
    · subst h2
      simp [assocFind] at h
      simp [assocSet, h]
    · simp [assocFind, h2] at h
      simp [assocSet, h2, ih h]

theorem assocSet_of_find_none {l : Assoc α} {k : String} (v : α)
    (h : assocFind l k = none) : assocSet l k v = l ++ [(k, v)] := by
  induction l with
  | nil => simp [assocSet]
  | cons p t ih =>
    obtain ⟨k', v'⟩ := p
    by_cases h2 : k' = k
    · simp [assocFind, h2] at h
    · simp [assocFind, h2] at h
      simp [assocSet, h2, ih h]

theorem assocErase_set_of_find_none {l : Assoc α} {k : String} (v : α)
    (h : assocFind l k = none) : assocErase (assocSet l k v) k = l := by
  induction l with
  | nil => simp [assocSet, assocErase]
  | cons p t ih =>
    obtain ⟨k', v'⟩ := p
    by_cases h2 : k' = k
    · simp [assocFind, h2] at h
    · simp [assocFind, h2] at h
      simp [assocSet, assocErase, h2, ih h]

theorem assocSet_assocSet (l : Assoc α) (k : String) (v w : α) :
    assocSet (assocSet l k v) k w = assocSet l k w := by
  induction l with
  | nil => simp [assocSet]
  | cons p t ih =>
    obtain ⟨k', v'⟩ := p
    by_cases h : k' = k <;> simp [assocSet, h, ih]

theorem keys_assocSet_of_isSome {l : Assoc α} {k : String} (v : α)
    (h : (assocFind l k).isSome) :
    (assocSet l k v).map Prod.fst = l.map Prod.fst := by
  induction l with
  | nil => simp [assocFind] at h
  | cons p t ih =>
    obtain ⟨k', v'⟩ := p
    by_cases h2 : k' = k
    · simp [assocSet, h2]
    · simp [assocFind, h2] at h
      simp [assocSet, h2, ih h]

theorem keys_assocSet_of_find_none {l : Assoc α} {k : String} (v : α)
    (h : assocFind l k = none) :
    (assocSet l k v).map Prod.fst = l.map Prod.fst ++ [k] := by
  rw [assocSet_of_find_none v h]
  simp

theorem assocFind_update_self (l : Assoc α) (k : String) (g : α → α) :
    assocFind (assocUpdate l k g) k = (assocFind l k).map g := by
  induction l with
  | nil => simp [assocUpdate, assocFind]
  | cons p t ih =>
    obtain ⟨k', v'⟩ := p
    by_cases h : k' = k <;> simp [assocUpdate, assocFind, h, ih]

theorem assocFind_update_ne (l : Assoc α) {k k' : String} (g : α → α)
    (h : k' ≠ k) :
    assocFind (assocUpdate l k g) k' = assocFind l k' := by
  induction l with
  | nil => simp [assocUpdate]
  | cons p t ih =>
    obtain ⟨k'', v''⟩ := p
    by_cases h2 : k'' = k <;>
      simp [assocUpdate, assocFind, h2, ih, Ne.symm h]

theorem assocFind_mem {l : Assoc α} {k : String} {v : α}
    (h : assocFind l k = some v) : (k, v) ∈ l := by
  induction l with
  | nil => simp [assocFind] at h
  | cons p t ih =>
    obtain ⟨k', v'⟩ := p
    by_cases h2 : k' = k
    · subst h2
      simp [assocFind] at h
      simp [h]
    · simp [assocFind, h2] at h
      exact List.mem_cons_of_mem _ (ih h)

end AssocLemmas

/-- C9: `onVolumeModified(frameOfReferenceUID)` maps every tool bucket under
that frame through `invalidateAnn` — which sets `invalidated := true` exactly
on the annotations whose flag is already defined, including those currently
false, and leaves flag-undefined annotations untouched — while the
dictionaries of all other frames of reference are unchanged. -/
theorem C9_onVolumeModified_invalidates (s : AnnState) (f : String) :
    (assocFind (onVolumeModified s f) f =
      (assocFind s f).map fun fd => fd.map fun p => (p.1, p.2.map invalidateAnn)) ∧
    (∀ g, g ≠ f → assocFind (onVolumeModified s f) g = assocFind s g) ∧
    (∀ a : Annot, a.invalidated = none → invalidateAnn a = a) ∧
    (∀ (a : Annot) (b : Bool), a.invalidated = some b →
      (invalidateAnn a).invalidated = some true ∧
      (invalidateAnn a).uid = a.uid ∧ (invalidateAnn a).metadata = a.metadata) := by
  refine ⟨?_, ?_, ?_, ?_⟩
  · cases h : assocFind s f with
    | none => simp [onVolumeModified, h]
    | some fd => simp [onVolumeModified, h, assocFind_update_self]
  · intro g hg
    cases h : assocFind s f with
    | none => simp [onVolumeModified, h]
    | some fd => simp [onVolumeModified, h, assocFind_update_ne _ _ hg]
  · intro a ha
    simp [invalidateAnn, ha]
  · intro a b ha
    simp [invalidateAnn, ha]

/-- Witness for C9 at a concrete store: one frame `f` with a false flag, a
defined-true flag and an undefined flag, and an untouched frame `g`. -/
theorem C9_onVolumeModified_invalidates_witness :
    (assocFind (onVolumeModified
        [("f", [("t", [⟨"a1", ⟨"f", "t"⟩, some false⟩])]),
         ("g", [("t", [⟨"a2", ⟨"g", "t"⟩, some false⟩])])] "f") "f" =
      (assocFind ([("f", [("t", [⟨"a1", ⟨"f", "t"⟩, some false⟩])]),
         ("g", [("t", [⟨"a2", ⟨"g", "t"⟩, some false⟩])])] : AnnState) "f").map
          fun fd => fd.map fun p => (p.1, p.2.map invalidateAnn)) ∧
    (assocFind (onVolumeModified
        [("f", [("t", [⟨"a1", ⟨"f", "t"⟩, some false⟩])]),
         ("g", [("t", [⟨"a2", ⟨"g", "t"⟩, some false⟩])])] "f") "g" =
      assocFind ([("f", [("t", [⟨"a1", ⟨"f", "t"⟩, some false⟩])]),
         ("g", [("t", [⟨"a2", ⟨"g", "t"⟩, some false⟩])])] : AnnState) "g") ∧
    invalidateAnn ⟨"a3", ⟨"f", "t"⟩, none⟩ = ⟨"a3", ⟨"f", "t"⟩, none⟩ ∧
    (invalidateAnn ⟨"a1", ⟨"f", "t"⟩, some false⟩).invalidated = some true := by
  have h := C9_onVolumeModified_invalidates
    [("f", [("t", [⟨"a1", ⟨"f", "t"⟩, some false⟩])]),
     ("g", [("t", [⟨"a2", ⟨"g", "t"⟩, some false⟩])])] "f"
  exact ⟨h.1, h.2.1 "g" (by decide), h.2.2.1 _ rfl, (h.2.2.2 _ false rfl).1⟩

/-- C3 counterexample: on the empty store, a `getAnnotation` or
`removeAnnotation` whose filter names the absent frame of reference "g" does
not return "not found": the JavaScript code dereferences `undefined` and
raises a TypeError.  This refutes the claim that such scoped lookups never
raise. -/
theorem C3_counterexample :
    getAnnot [] "u" ⟨some "g", none⟩ = .error "TypeError" ∧
    removeAnnot [] "u" ⟨some "g", none⟩ = .error "TypeError" :=
  ⟨rfl, rfl⟩

/-- C4 counterexample: adding a single annotation under the fresh frame "f4"
and removing it by identifier deletes only the tool bucket; the frame bucket
`("f4", [])` survives, so "f4" is still reported by `getFramesOfReference`,
refuting the claim that the frame UID becomes absent. -/
theorem C4_counterexample :
    removeAnnot (addAnnot [] ⟨"a4", ⟨"f4", "PlanarFreehandROI"⟩, some false⟩)
        "a4" noFilter = .ok [("f4", [])] ∧
    getFramesOfReference [("f4", [])] = ["f4"] :=
  ⟨rfl, rfl⟩

/-- C2 counterexample: a two-point gesture (below `minPoints 4 = 12`)
released during Drawing on a store that was empty before the draw started.
The shell annotation is removed, but the abort leaves the empty frame bucket
`("f2", [])` behind, so the frame-of-reference bucket count reported by
`getFramesOfReference` is 1 after the abort versus 0 before the draw,
refuting the claimed equality of the bucket structure. -/
theorem C2_counterexample :
    (mouseUpDrawCallback mQuarter true 10 4 (stDrawing [(0, 0), (1, 0)])
        (addAnnot [] ⟨"u2", ⟨"f2", "PlanarFreehandROI"⟩, some true⟩) "u2").2 =
      .ok [("f2", [])] ∧
    (mouseUpDrawCallback mQuarter true 10 4 (stDrawing [(0, 0), (1, 0)])
        (addAnnot [] ⟨"u2", ⟨"f2", "PlanarFreehandROI"⟩, some true⟩)
        "u2").1.isDrawing = false ∧
    (getFramesOfReference [("f2", [])]).length = 1 ∧
    (getFramesOfReference ([] : AnnState)).length = 0 :=
  ⟨rfl, rfl, rfl, rfl⟩

/-- C6 counterexample: the frame-scoped `restoreAnnotations` stores the
caller's object itself: the stored frame value is reference-identical to the
input and the input's heap address 5 occurs in the store afterwards, refuting
the claim that every `importState` scope takes a deep copy sharing no mutable
structure with the caller's data. -/
theorem C6_counterexample :
    objGet (restoreAnnotsFrameHeap (.node 0 []) (.node 5 [("x", .prim "1")]) "f")
        "f" = some (.node 5 [("x", .prim "1")]) ∧
    5 ∈ addrsV (.node 5 [("x", .prim "1")] : JVal) ∧
    5 ∈ addrsV (restoreAnnotsFrameHeap (.node 0 []) (.node 5 [("x", .prim "1")]) "f") := by
  refine ⟨rfl, ?_, ?_⟩ <;>
    simp [restoreAnnotsFrameHeap, objSet, assocSet, addrsV, addrsF]

/-! Heap-model lemmas: `cloneV` preserves shape and allocates only fresh
addresses; mutation at an address foreign to a value leaves it unchanged. -/

mutual

theorem addrsV_cloneV (k : ℕ) : ∀ v : JVal,
    addrsV (cloneV k v) = (addrsV v).map (· + k)
  | .prim s => by simp [cloneV, addrsV]
  | .node a cs => by simp [cloneV, addrsV, addrsF_cloneF k cs]

theorem addrsF_cloneF (k : ℕ) : ∀ cs : List (String × JVal),
    addrsF (cloneF k cs) = (addrsF cs).map (· + k)
  | [] => by simp [cloneF, addrsF]
  | (f, v) :: t => by
    simp [cloneF, addrsF, addrsV_cloneV k v, addrsF_cloneF k t]

end

mutual

theorem eraseV_cloneV (k : ℕ) : ∀ v : JVal, eraseV (cloneV k v) = eraseV v
  | .prim s => by simp [cloneV, eraseV]
  | .node a cs => by simp [cloneV, eraseV, eraseF_cloneF k cs]

theorem eraseF_cloneF (k : ℕ) : ∀ cs : List (String × JVal),
    eraseF (cloneF k cs) = eraseF cs
  | [] => by simp [cloneF, eraseF]
  | (f, v) :: t => by
    simp [cloneF, eraseF, eraseV_cloneV k v, eraseF_cloneF k t]

end

mutual

theorem setAtV_id (x : ℕ) (g : List (String × JVal) → List (String × JVal)) :
    ∀ v : JVal, x ∉ addrsV v → setAtV x g v = v
  | .prim _, _ => rfl
  | .node b cs, h => by
    have hb : ¬ b = x := by
      intro e
      exact h (by simp [addrsV, e])
    have hcs : x ∉ addrsF cs := by
      intro hm
      exact h (by simp [addrsV, hm])
    simp [setAtV, hb, setAtF_id x g cs hcs]

theorem setAtF_id (x : ℕ) (g : List (String × JVal) → List (String × JVal)) :
    ∀ cs : List (String × JVal), x ∉ addrsF cs → setAtF x g cs = cs
  | [], _ => rfl
  | (f, v) :: t, h => by
    have hv : x ∉ addrsV v := fun hm => h (by simp [addrsF, hm])
    have ht : x ∉ addrsF t := fun hm => h (by simp [addrsF, hm])
    simp [setAtF, setAtV_id x g v hv, setAtF_id x g t ht]

end

theorem cloneAnn_eq_self (a : Annot) : cloneAnn a = a := by
  obtain ⟨u, ⟨f, t⟩, i⟩ := a
  rfl

theorem cloneDeepP_eq_self (s : AnnState) : cloneDeepP s = s := by
  have h1 : cloneAnn = fun a => a := funext cloneAnn_eq_self
  unfold cloneDeepP
  simp [h1]

/-- C5: `saveAnnotations()` followed by `restoreAnnotations` into a fresh
store reproduces the original nested structure exactly, and the exported
heap value is a fresh deep copy: it has the same shape as the store's value,
and mutating the heap at any address of the exported copy leaves the store's
value untouched. -/
theorem C5_export_import_roundtrip (s : AnnState) (t : JVal) (k : ℕ)
    (hk : ∀ a ∈ addrsV t, a < k) :
    restoreAnnotsAll [] (saveAnnotsAll s) = s ∧
    eraseV (saveAnnotsHeap t k) = eraseV t ∧
    ∀ a ∈ addrsV (saveAnnotsHeap t k), ∀ g, setAtV a g t = t := by
  refine ⟨?_, eraseV_cloneV k t, ?_⟩
  · show cloneDeepP (cloneDeepP s) = s
    rw [cloneDeepP_eq_self, cloneDeepP_eq_self]
  · intro a ha g
    rw [saveAnnotsHeap, addrsV_cloneV] at ha
    obtain ⟨b, hb, rfl⟩ := List.mem_map.1 ha
    refine setAtV_id _ g t fun hm => ?_
    exact absurd (hk _ hm) (Nat.not_lt.2 (Nat.le_add_left k b))

/-- Witness for C5: a one-annotation store round-trips, and the heap-level
export of a one-field object at address 0 with allocation bound 1 is
shape-equal, while mutating the copy's address 1 leaves the original
untouched. -/
theorem C5_export_import_roundtrip_witness :
    restoreAnnotsAll []
        (saveAnnotsAll [("f", [("t", [⟨"a1", ⟨"f", "t"⟩, some true⟩])])]) =
      [("f", [("t", [⟨"a1", ⟨"f", "t"⟩, some true⟩])])] ∧
    eraseV (saveAnnotsHeap (.node 0 [("x", .prim "1")]) 1) =
      eraseV (.node 0 [("x", .prim "1")]) ∧
    setAtV 1 (fun _ => []) (.node 0 [("x", .prim "1")]) =
      .node 0 [("x", .prim "1")] := by
  have h := C5_export_import_roundtrip
    [("f", [("t", [⟨"a1", ⟨"f", "t"⟩, some true⟩])])]
    (.node 0 [("x", .prim "1")]) 1 (by simp [addrsV, addrsF])
  exact ⟨h.1, h.2.1,
    h.2.2 1 (by simp [saveAnnotsHeap, cloneV, cloneF, addrsV, addrsF]) _⟩

/-- C6 amended: `restoreAnnotations` replaces the targeted scope wholesale
(full replace, not merge) in every scoping mode and other scopes are
untouched; the unscoped restore installs a deep copy whose addresses are
disjoint from the caller's data, but the frame-scoped and frame-plus-tool
scoped restores install the caller's object itself by reference: the frame
key (respectively the tool key of the frame's dictionary object) afterwards
holds the caller's heap value, address included. -/
theorem C6_amended_restore_replaces (s : AnnState) (data : FrameDict)
    (bdata : List Annot) (dataP : AnnState) (f t : String) (a0 : ℕ)
    (cs : List (String × JVal)) (dataH : JVal) (k : ℕ)
    (hk : ∀ x ∈ addrsV dataH, x < k) :
    assocFind (restoreAnnotsFrame s data f) f = some data ∧
    (∀ g, g ≠ f → assocFind (restoreAnnotsFrame s data f) g = assocFind s g) ∧
    assocFind (restoreAnnotsFrameTool s bdata f t) f =
      some (assocSet ((assocFind s f).getD []) t bdata) ∧
    restoreAnnotsAll s dataP = dataP ∧
    eraseV (cloneV k dataH) = eraseV dataH ∧
    (∀ x ∈ addrsV (cloneV k dataH), x ∉ addrsV dataH) ∧
    objGet (restoreAnnotsFrameHeap (.node a0 cs) dataH f) f = some dataH ∧
    (∀ (af : ℕ) (fs : List (String × JVal)),
      assocFind cs f = some (.node af fs) →
        objGet (restoreAnnotsFrameToolHeap (.node a0 cs) dataH f t k) f =
          some (objSet (.node af fs) t dataH) ∧
        objGet (objSet (.node af fs) t dataH) t = some dataH) := by
  refine ⟨assocFind_set_self .., ?_, assocFind_set_self .., cloneDeepP_eq_self dataP,
    eraseV_cloneV k dataH, ?_, ?_, ?_⟩
  · intro g hg
    exact assocFind_set_ne _ _ hg
  · intro x hx
    rw [addrsV_cloneV] at hx
    obtain ⟨b, hb, rfl⟩ := List.mem_map.1 hx
    intro hm
    exact absurd (hk _ hm) (Nat.not_lt.2 (Nat.le_add_left k b))
  · show assocFind (assocSet cs f dataH) f = some dataH
    exact assocFind_set_self ..
  · intro af fs hfd
    have hstep : restoreAnnotsFrameToolHeap (.node a0 cs) dataH f t k =
        objSet (.node a0 cs) f (objSet (.node af fs) t dataH) := by
      rw [restoreAnnotsFrameToolHeap,
        show objGet (.node a0 cs) f = assocFind cs f from rfl, hfd]
    constructor
    · rw [hstep]
      show assocFind (assocSet cs f (objSet (.node af fs) t dataH)) f =
        some (objSet (.node af fs) t dataH)
      exact assocFind_set_self ..
    · show assocFind (assocSet fs t dataH) t = some dataH
      exact assocFind_set_self ..

/-- Witness for C6 amended, fully instantiated: frame-scoped restore of an
empty dictionary into the empty store, the unscoped pure restore, and the
heap-level facts at data address 5 with allocation bound 6, over a store
whose frame object "f" lives at address 7. -/
theorem C6_amended_restore_replaces_witness :
    assocFind (restoreAnnotsFrame [] [] "f") "f" = some [] ∧
    assocFind (restoreAnnotsFrame [] [] "f") "g" = assocFind ([] : AnnState) "g" ∧
    assocFind (restoreAnnotsFrameTool [] [] "f" "t") "f" =
      some (assocSet ((assocFind ([] : AnnState) "f").getD []) "t" []) ∧
    restoreAnnotsAll [] [] = ([] : AnnState) ∧
    eraseV (cloneV 6 (.node 5 [])) = eraseV (.node 5 []) ∧
    (5 + 6) ∉ addrsV (.node 5 [] : JVal) ∧
    objGet (restoreAnnotsFrameHeap (.node 0 [("f", .node 7 [])]) (.node 5 [])
      "f") "f" = some (.node 5 []) ∧
    objGet (restoreAnnotsFrameToolHeap (.node 0 [("f", .node 7 [])])
        (.node 5 []) "f" "t" 6) "f" =
      some (objSet (.node 7 []) "t" (.node 5 [])) ∧
    objGet (objSet (.node 7 []) "t" (.node 5 [])) "t" = some (.node 5 []) := by
  have h := C6_amended_restore_replaces [] [] [] [] "f" "t" 0
    [("f", .node 7 [])] (.node 5 []) 6 (by simp [addrsV, addrsF])
  exact ⟨h.1, h.2.1 "g" (by decide), h.2.2.1, h.2.2.2.1, h.2.2.2.2.1,
    h.2.2.2.2.2.1 (5 + 6) (by simp [cloneV, cloneF, addrsV, addrsF]),
    h.2.2.2.2.2.2.1, (h.2.2.2.2.2.2.2 7 [] rfl).1, (h.2.2.2.2.2.2.2 7 [] rfl).2⟩

/-! Freshness lemmas for the identifier scan of
`_getToolSpecificAnnotationsAndIndex`. -/

theorem findIdx?_uid_none {b : List Annot} {uid : String}
    (h : uid ∉ bucketUids b) (i : ℕ) :
    List.findIdx? (fun a => a.uid = uid) b i = none := by
  induction b generalizing i with
  | nil => simp
  | cons a t ih =>
    simp [bucketUids] at h
    rw [List.findIdx?_cons]
    have ha : ¬ (a.uid = uid) := fun e => h.1 e.symm
    simp only [ha, decide_eq_true_eq, if_false, decide_False]
    exact ih (by simp [bucketUids]; exact h.2) _

theorem locateInFrame_fresh {fd : FrameDict} {uid : String}
    (h : uid ∉ fdUids fd) : locateInFrame fd uid none = .ok none := by
  induction fd with
  | nil => rfl
  | cons p rest ih =>
    obtain ⟨t, b⟩ := p
    have hb : uid ∉ bucketUids b := by
      intro hm
      exact h (by simp [fdUids]; exact Or.inl hm)
    have hrest : uid ∉ fdUids rest := by
      intro hm
      refine h ?_
      simp [fdUids] at hm ⊢
      exact Or.inr hm
    simp [locateInFrame, findIdx?_uid_none hb, ih hrest]

theorem locateScan_fresh {s : AnnState} {uid : String}
    (h : uid ∉ allUids s) : locateScan s uid none = .ok none := by
  induction s with
  | nil => rfl
  | cons p rest ih =>
    obtain ⟨f, fd⟩ := p
    have hfd : uid ∉ fdUids fd := by
      intro hm
      exact h (by simp [allUids]; exact Or.inl hm)
    have hrest : uid ∉ allUids rest := by
      intro hm
      refine h ?_
      simp [allUids] at hm ⊢
      exact Or.inr hm
    simp [locateScan, locateInFrame_fresh hfd, ih hrest]

theorem getAnnot_fresh {s : AnnState} {uid : String} (h : uid ∉ allUids s) :
    getAnnot s uid noFilter = .ok none := by
  simp [getAnnot, locateAnnot, noFilter, locateScan_fresh h, Except.map]

theorem removeAnnot_fresh {s : AnnState} {uid : String} (h : uid ∉ allUids s) :
    removeAnnot s uid noFilter = .ok s := by
  simp [removeAnnot, locateAnnot, noFilter, locateScan_fresh h]

/-- C3 amended: lookup and removal of an unknown identifier with an empty
filter are a non-raising "not found"/no-op; but a filter naming a frame of
reference absent from the store, or naming a tool kind absent from a frame
it scopes to, makes both `getAnnotation` and `removeAnnotation` raise a
TypeError instead of returning "not found". -/
theorem C3_amended_lookup_miss (s : AnnState) (uid : String) :
    (uid ∉ allUids s →
      getAnnot s uid noFilter = .ok none ∧ removeAnnot s uid noFilter = .ok s) ∧
    (∀ f tf, assocFind s f = none →
      getAnnot s uid ⟨some f, tf⟩ = .error "TypeError" ∧
      removeAnnot s uid ⟨some f, tf⟩ = .error "TypeError") ∧
    (∀ f fd t, assocFind s f = some fd → assocFind fd t = none →
      getAnnot s uid ⟨some f, some t⟩ = .error "TypeError" ∧
      removeAnnot s uid ⟨some f, some t⟩ = .error "TypeError") := by
  refine ⟨fun h => ⟨getAnnot_fresh h, removeAnnot_fresh h⟩, ?_, ?_⟩
  · intro f tf h
    constructor <;> simp [getAnnot, removeAnnot, locateAnnot, h, Except.map]
  · intro f fd t hf ht
    constructor <;>
      simp [getAnnot, removeAnnot, locateAnnot, locateInFrame, hf, ht, Except.map]

/-- Witness for C3 amended at a concrete one-annotation store: unknown
identifier "zz" with the empty filter misses silently; the filters naming
the absent frame "g" and the absent tool "q" under frame "f" raise. -/
theorem C3_amended_lookup_miss_witness :
    (getAnnot [("f", [("t", [⟨"a1", ⟨"f", "t"⟩, none⟩])])] "zz" noFilter =
        .ok none ∧
      removeAnnot [("f", [("t", [⟨"a1", ⟨"f", "t"⟩, none⟩])])] "zz" noFilter =
        .ok [("f", [("t", [⟨"a1", ⟨"f", "t"⟩, none⟩])])]) ∧
    (getAnnot [("f", [("t", [⟨"a1", ⟨"f", "t"⟩, none⟩])])] "zz"
        ⟨some "g", none⟩ = .error "TypeError" ∧
      removeAnnot [("f", [("t", [⟨"a1", ⟨"f", "t"⟩, none⟩])])] "zz"
        ⟨some "g", none⟩ = .error "TypeError") ∧
    (getAnnot [("f", [("t", [⟨"a1", ⟨"f", "t"⟩, none⟩])])] "zz"
        ⟨some "f", some "q"⟩ = .error "TypeError" ∧
      removeAnnot [("f", [("t", [⟨"a1", ⟨"f", "t"⟩, none⟩])])] "zz"
        ⟨some "f", some "q"⟩ = .error "TypeError") := by
  have h := C3_amended_lookup_miss [("f", [("t", [⟨"a1", ⟨"f", "t"⟩, none⟩])])] "zz"
  exact ⟨h.1 (by simp [allUids, fdUids, bucketUids]),
    h.2.1 "g" none rfl, h.2.2 "f" [("t", [⟨"a1", ⟨"f", "t"⟩, none⟩])] "q" rfl rfl⟩

/-! Characterization of `removeAnnotation` directly after `addAnnotation`. -/

theorem eraseIdx_append_last {α : Type} (l : List α) (x : α) :
    (l ++ [x]).eraseIdx l.length = l := by
  induction l with
  | nil => rfl
  | cons y t ih => simp [List.eraseIdx_cons_succ, ih]

theorem findIdx?_append_last {b : List Annot} {a : Annot}
    (h : a.uid ∉ bucketUids b) (i : ℕ) :
    List.findIdx? (fun x => x.uid = a.uid) (b ++ [a]) i = some (i + b.length) := by
  induction b generalizing i with
  | nil => simp
  | cons y t ih =>
    simp [bucketUids] at h
    have hy : ¬ (y.uid = a.uid) := fun e => h.1 e.symm
    have ht := ih (by simp [bucketUids]; exact h.2) (i + 1)
    rw [List.cons_append, List.findIdx?_cons]
    simp only [hy, decide_False, if_false]
    rw [ht]
    have harith : i + 1 + t.length = i + (y :: t).length := by
      simp [List.length_cons]
      omega
    rw [harith]
    simp

theorem fdUids_of_assocFind {s : AnnState} {f : String} {fd : FrameDict}
    (hf : assocFind s f = some fd) {u : String} (hu : u ∈ fdUids fd) :
    u ∈ allUids s := by
  have hm := assocFind_mem hf
  unfold allUids
  exact List.mem_flatten.2 ⟨fdUids fd, List.mem_map.2 ⟨⟨f, fd⟩, hm, rfl⟩, hu⟩

theorem bucketUids_of_assocFind {fd : FrameDict} {t : String} {b : List Annot}
    (ht : assocFind fd t = some b) {u : String} (hu : u ∈ bucketUids b) :
    u ∈ fdUids fd := by
  have hm := assocFind_mem ht
  unfold fdUids
  exact List.mem_flatten.2 ⟨bucketUids b, List.mem_map.2 ⟨⟨t, b⟩, hm, rfl⟩, hu⟩

theorem locateInFrame_add {fd : FrameDict} {a : Annot} (t : String)
    (h : a.uid ∉ fdUids fd) :
    locateInFrame (assocSet fd t (((assocFind fd t).getD []) ++ [a]))
        a.uid none =
      .ok (some (t, ((assocFind fd t).getD []) ++ [a],
        ((assocFind fd t).getD []).length)) := by
  induction fd with
  | nil =>
    simp [assocFind, assocSet, locateInFrame, List.findIdx?_cons]
  | cons p rest ih =>
    obtain ⟨t', b'⟩ := p
    by_cases h2 : t' = t
    · subst h2
      have hfind : assocFind ((t', b') :: rest) t' = some b' := by
        simp [assocFind]
      have hb : a.uid ∉ bucketUids b' :=
        fun hm => h (bucketUids_of_assocFind hfind hm)
      simp [assocFind, assocSet, locateInFrame, findIdx?_append_last hb 0]
    · have hfind : assocFind ((t', b') :: rest) t' = some b' := by
        simp [assocFind]
      have hb : a.uid ∉ bucketUids b' :=
        fun hm => h (bucketUids_of_assocFind hfind hm)
      have hrest : a.uid ∉ fdUids rest := by
        intro hm
        refine h ?_
        unfold fdUids at hm ⊢
        simp at hm ⊢
        obtain ⟨x, hx, hxx⟩ := hm
        exact Or.inr ⟨x, hx, hxx⟩
      have := ih hrest
      simp [assocFind, assocSet, locateInFrame, h2, findIdx?_uid_none hb, this]

theorem locateScan_add {s : AnnState} {f : String} {fd' : FrameDict}
    {a : Annot} {t : String} {b : List Annot} {i : ℕ}
    (hs : a.uid ∉ allUids s)
    (hfd : locateInFrame fd' a.uid none = .ok (some (t, b, i))) :
    locateScan (assocSet s f fd') a.uid none = .ok (some ⟨f, t, b, i⟩) := by
  induction s with
  | nil => simp [assocSet, locateScan, hfd]
  | cons p rest ih =>
    obtain ⟨g, gd⟩ := p
    by_cases h2 : g = f
    · subst h2
      simp [assocSet, locateScan, hfd]
    · have hfind : assocFind ((g, gd) :: rest) g = some gd := by
        simp [assocFind]
      have hgd : a.uid ∉ fdUids gd :=
        fun hm => hs (fdUids_of_assocFind hfind hm)
      have hrest : a.uid ∉ allUids rest := by
        intro hm
        refine hs ?_
        unfold allUids at hm ⊢
        simp at hm ⊢
        obtain ⟨x, hx, hxx⟩ := hm
        exact Or.inr ⟨x, hx, hxx⟩
      simp [assocSet, locateScan, h2, locateInFrame_fresh hgd, ih hrest]

theorem assocSet_append_self {α : Type} {s : Assoc α} {f : String}
    (hf : assocFind s f = none) (v w : α) :
    assocSet (s ++ [(f, v)]) f w = s ++ [(f, w)] := by
  induction s with
  | nil => simp [assocSet]
  | cons p rest ih =>
    obtain ⟨g, gd⟩ := p
    by_cases h2 : g = f
    · simp [assocFind, h2] at hf
    · simp [assocFind, h2] at hf
      simp [assocSet, h2, ih hf]

theorem allUids_append_nil (s : AnnState) (f : String) :
    allUids (s ++ [(f, [])]) = allUids s := by
  simp [allUids, fdUids]

/-- Removing a freshly added annotation whose frame of reference was new:
the tool bucket is deleted but the empty frame dictionary survives. -/
theorem removeAnnot_addAnnot_newFrame (s : AnnState) (a : Annot)
    (hfresh : a.uid ∉ allUids s)
    (hsf : assocFind s a.metadata.forUID = none) :
    removeAnnot (addAnnot s a) a.uid noFilter =
      .ok (s ++ [(a.metadata.forUID, [])]) := by
  have hadd : addAnnot s a =
      assocSet s a.metadata.forUID [(a.metadata.toolName, [a])] := by
    simp [addAnnot, hsf, assocFind, assocSet]
  have hin : locateInFrame [(a.metadata.toolName, [a])] a.uid none =
      .ok (some (a.metadata.toolName, [a], 0)) := by
    simp [locateInFrame, List.findIdx?_cons]
  have hloc : locateAnnot (addAnnot s a) a.uid noFilter =
      .ok (some ⟨a.metadata.forUID, a.metadata.toolName, [a], 0⟩) := by
    rw [hadd]
    exact locateScan_add hfresh hin
  have hfind_add : assocFind (addAnnot s a) a.metadata.forUID =
      some [(a.metadata.toolName, [a])] := by
    rw [hadd]
    exact assocFind_set_self ..
  rw [removeAnnot, hloc]
  simp only [List.eraseIdx, List.isEmpty_nil, if_true, List.headD, hfind_add]
  have herase : assocErase [(a.metadata.toolName, [a])] a.metadata.toolName =
      [] := by
    simp [assocErase]
  rw [herase, hadd, assocSet_of_find_none _ hsf, assocSet_append_self hsf]

/-- Removing a freshly added annotation whose frame existed but whose tool
bucket was new: the store returns exactly to its previous value. -/
theorem removeAnnot_addAnnot_newTool (s : AnnState) (a : Annot)
    (fd0 : FrameDict) (hfresh : a.uid ∉ allUids s)
    (hsf : assocFind s a.metadata.forUID = some fd0)
    (ht : assocFind fd0 a.metadata.toolName = none) :
    removeAnnot (addAnnot s a) a.uid noFilter = .ok s := by
  have hadd : addAnnot s a =
      assocSet s a.metadata.forUID
        (assocSet fd0 a.metadata.toolName [a]) := by
    simp [addAnnot, hsf, ht]
  have hfd_fresh : a.uid ∉ fdUids fd0 :=
    fun hm => hfresh (fdUids_of_assocFind hsf hm)
  have hin := @locateInFrame_add fd0 a a.metadata.toolName hfd_fresh
  rw [ht] at hin
  simp only [Option.getD_none, List.nil_append, List.length_nil] at hin
  have hloc : locateAnnot (addAnnot s a) a.uid noFilter =
      .ok (some ⟨a.metadata.forUID, a.metadata.toolName, [a], 0⟩) := by
    rw [hadd]
    exact locateScan_add hfresh hin
  have hfind_add : assocFind (addAnnot s a) a.metadata.forUID =
      some (assocSet fd0 a.metadata.toolName [a]) := by
    rw [hadd]
    exact assocFind_set_self ..
  rw [removeAnnot, hloc]
  simp only [List.eraseIdx, List.isEmpty_nil, if_true, List.headD, hfind_add]
  rw [assocErase_set_of_find_none _ ht, hadd, assocSet_assocSet,
    assocSet_eq_self hsf]

/-- Removing a freshly added annotation appended to a pre-existing nonempty
tool bucket: the store returns exactly to its previous value. -/
theorem removeAnnot_addAnnot_existingTool (s : AnnState) (a : Annot)
    (fd0 : FrameDict) (b0 : List Annot) (hfresh : a.uid ∉ allUids s)
    (hsf : assocFind s a.metadata.forUID = some fd0)
    (ht : assocFind fd0 a.metadata.toolName = some b0) (hb : b0 ≠ []) :
    removeAnnot (addAnnot s a) a.uid noFilter = .ok s := by
  have hadd : addAnnot s a =
      assocSet s a.metadata.forUID
        (assocSet fd0 a.metadata.toolName (b0 ++ [a])) := by
    simp [addAnnot, hsf, ht]
  have hfd_fresh : a.uid ∉ fdUids fd0 :=
    fun hm => hfresh (fdUids_of_assocFind hsf hm)
  have hin := @locateInFrame_add fd0 a a.metadata.toolName hfd_fresh
  rw [ht] at hin
  simp only [Option.getD_some] at hin
  have hloc : locateAnnot (addAnnot s a) a.uid noFilter =
      .ok (some ⟨a.metadata.forUID, a.metadata.toolName, b0 ++ [a],
        b0.length⟩) := by
    rw [hadd]
    exact locateScan_add hfresh hin
  have hfind_add : assocFind (addAnnot s a) a.metadata.forUID =
      some (assocSet fd0 a.metadata.toolName (b0 ++ [a])) := by
    rw [hadd]
    exact assocFind_set_self ..
  rw [removeAnnot, hloc]
  have herase : (b0 ++ [a]).eraseIdx b0.length = b0 := eraseIdx_append_last b0 a
  have hb0e : b0.isEmpty = false := by simp [hb]
  simp only [herase, hb0e, Bool.false_eq_true, if_false, hfind_add,
    Option.getD_some]
  rw [assocSet_assocSet, assocSet_eq_self ht, hadd, assocSet_assocSet,
    assocSet_eq_self hsf]

/-- Removing a freshly added annotation by its identifier: if the
annotation's frame of reference already had a dictionary (and the store
keeps no empty tool buckets), the store returns exactly to its previous
value; if the frame was new, an empty frame dictionary is left behind. -/
theorem removeAnnot_addAnnot (s : AnnState) (a : Annot)
    (hfresh : a.uid ∉ allUids s) (hwf : NoEmptyBuckets s) :
    removeAnnot (addAnnot s a) a.uid noFilter =
      .ok (if (assocFind s a.metadata.forUID).isSome = true then s
           else s ++ [(a.metadata.forUID, [])]) := by
  cases hsf : assocFind s a.metadata.forUID with
  | none =>
    simp only [Option.isSome_none, Bool.false_eq_true, if_false]
    exact removeAnnot_addAnnot_newFrame s a hfresh hsf
  | some fd0 =>
    simp only [Option.isSome_some, if_true]
    cases ht : assocFind fd0 a.metadata.toolName with
    | none => exact removeAnnot_addAnnot_newTool s a fd0 hfresh hsf ht
    | some b0 =>
      have hb : b0 ≠ [] :=
        hwf _ (assocFind_mem hsf) _ (assocFind_mem ht)
      exact removeAnnot_addAnnot_existingTool s a fd0 b0 hfresh hsf ht hb

/-- C4 amended: `addAnnotation` followed by `removeAnnotation` of a fresh
identifier deletes the now-empty tool bucket and restores the store exactly
when the frame of reference already existed; when the frame was new, the
frame bucket itself is not deleted: it remains, empty, and the frame UID is
still reported by `getFramesOfReference`. -/
theorem C4_amended_remove_behavior (store : AnnState) (a : Annot)
    (hfresh : a.uid ∉ allUids store) (hwf : NoEmptyBuckets store) :
    ((assocFind store a.metadata.forUID).isSome = true →
      removeAnnot (addAnnot store a) a.uid noFilter = .ok store) ∧
    (assocFind store a.metadata.forUID = none →
      removeAnnot (addAnnot store a) a.uid noFilter =
          .ok (store ++ [(a.metadata.forUID, ([] : FrameDict))]) ∧
      a.metadata.forUID ∈
        getFramesOfReference (store ++ [(a.metadata.forUID, ([] : FrameDict))]) ∧
      assocFind (store ++ [(a.metadata.forUID, ([] : FrameDict))]) a.metadata.forUID =
        some ([] : FrameDict) ∧
      getAnnot (store ++ [(a.metadata.forUID, ([] : FrameDict))]) a.uid noFilter =
        .ok none) := by
  have h := removeAnnot_addAnnot store a hfresh hwf
  constructor
  · intro hs
    rw [h, if_pos hs]
  · intro hs
    rw [h, if_neg (by simp [hs])]
    refine ⟨rfl, ?_, ?_, ?_⟩
    · simp [getFramesOfReference]
    · rw [← assocSet_of_find_none ([] : FrameDict) hs]
      exact assocFind_set_self ..
    · refine getAnnot_fresh ?_
      rw [allUids_append_nil]
      exact hfresh

/-- Witness for C4 amended: removing "w4" after adding it to a store that
already held frame "fw" restores that store; removing "w5" after adding it
under the new frame "fw5" of the empty store leaves the empty frame bucket
listed. -/
theorem C4_amended_remove_behavior_witness :
    removeAnnot (addAnnot [("fw", [("tw", [⟨"b0", ⟨"fw", "tw"⟩, none⟩])])]
        ⟨"w4", ⟨"fw", "tw"⟩, none⟩) "w4" noFilter =
      .ok [("fw", [("tw", [⟨"b0", ⟨"fw", "tw"⟩, none⟩])])] ∧
    removeAnnot (addAnnot [] ⟨"w5", ⟨"fw5", "tw"⟩, none⟩) "w5" noFilter =
      .ok ([] ++ [("fw5", [])]) ∧
    "fw5" ∈ getFramesOfReference ([] ++ [("fw5", [])]) ∧
    assocFind ([] ++ [("fw5", [])]) "fw5" = some ([] : FrameDict) ∧
    getAnnot ([] ++ [("fw5", [])]) "w5" noFilter = .ok none := by
  have h1 := C4_amended_remove_behavior
    [("fw", [("tw", [⟨"b0", ⟨"fw", "tw"⟩, none⟩])])]
    ⟨"w4", ⟨"fw", "tw"⟩, none⟩
    (by simp [allUids, fdUids, bucketUids]) (by unfold NoEmptyBuckets; decide)
  have h2 := C4_amended_remove_behavior [] ⟨"w5", ⟨"fw5", "tw"⟩, none⟩
    (by simp [allUids]) (by unfold NoEmptyBuckets; decide)
  have h2' := h2.2 rfl
  exact ⟨h1.1 rfl, h2'.1, h2'.2.1, h2'.2.2.1, h2'.2.2.2⟩

/-- C2 amended: a release during Drawing with fewer than
`max(3, subPixelResolution*3)` buffered points commits no annotation: the
Drawing state ends, the buffer is destroyed and the shell annotation is no
longer retrievable.  The bucket structure, however, is only restored when
the shell's frame of reference already existed; when the draw created the
frame, an empty frame bucket survives the abort and the frame count grows
by one relative to the pre-draw store. -/
theorem C2_amended_short_release (m : DrawModel) (allowOpen : Bool)
    (prox : ℚ) (subRes : ℕ) (st : DrawState) (store : AnnState) (a : Annot)
    (hshort : st.buffer.length < minPoints subRes)
    (hfresh : a.uid ∉ allUids store) (hwf : NoEmptyBuckets store) :
    (mouseUpDrawCallback m allowOpen prox subRes st (addAnnot store a)
      a.uid).1.isDrawing = false ∧
    (mouseUpDrawCallback m allowOpen prox subRes st (addAnnot store a)
      a.uid).1.buffer = [] ∧
    (mouseUpDrawCallback m allowOpen prox subRes st (addAnnot store a)
        a.uid).2 =
      .ok (if (assocFind store a.metadata.forUID).isSome = true then store
           else store ++ [(a.metadata.forUID, ([] : FrameDict))]) ∧
    ((assocFind store a.metadata.forUID).isSome = true →
      getFramesOfReference
          (if (assocFind store a.metadata.forUID).isSome = true then store
           else store ++ [(a.metadata.forUID, ([] : FrameDict))]) =
        getFramesOfReference store) ∧
    (assocFind store a.metadata.forUID = none →
      getFramesOfReference (store ++ [(a.metadata.forUID, ([] : FrameDict))]) =
        getFramesOfReference store ++ [a.metadata.forUID]) ∧
    getAnnot (if (assocFind store a.metadata.forUID).isSome = true then store
        else store ++ [(a.metadata.forUID, ([] : FrameDict))]) a.uid noFilter = .ok none := by
  have hup : mouseUpDrawCallback m allowOpen prox subRes st (addAnnot store a)
      a.uid =
      ({ st with isDrawing := false, buffer := [] },
        removeAnnot (addAnnot store a) a.uid noFilter) := by
    simp [mouseUpDrawCallback, hshort]
  rw [hup]
  refine ⟨rfl, rfl, removeAnnot_addAnnot store a hfresh hwf, ?_, ?_, ?_⟩
  · intro hs
    rw [if_pos hs]
  · intro hs
    simp [getFramesOfReference]
  · cases hs : (assocFind store a.metadata.forUID).isSome with
    | false =>
      rw [if_neg (by simp)]
      refine getAnnot_fresh ?_
      rw [allUids_append_nil]
      exact hfresh
    | true =>
      rw [if_pos rfl]
      exact getAnnot_fresh hfresh

/-- Witness for C2 amended: a one-point gesture aborted over the empty
store with `subPixelResolution 4` removes the shell "w2" but leaves the
empty frame bucket "fw2" listed. -/
theorem C2_amended_short_release_witness :
    (mouseUpDrawCallback mQuarter true 10 4 (stDrawing [(0, 0)])
      (addAnnot [] ⟨"w2", ⟨"fw2", "tw"⟩, none⟩) "w2").1.isDrawing = false ∧
    (mouseUpDrawCallback mQuarter true 10 4 (stDrawing [(0, 0)])
      (addAnnot [] ⟨"w2", ⟨"fw2", "tw"⟩, none⟩) "w2").1.buffer = [] ∧
    (mouseUpDrawCallback mQuarter true 10 4 (stDrawing [(0, 0)])
        (addAnnot [] ⟨"w2", ⟨"fw2", "tw"⟩, none⟩) "w2").2 =
      .ok ([] ++ [("fw2", [])]) ∧
    getFramesOfReference ([] ++ [("fw2", [])]) =
      getFramesOfReference [] ++ ["fw2"] ∧
    getAnnot ([] ++ [("fw2", [])]) "w2" noFilter = .ok none := by
  have h := C2_amended_short_release mQuarter true 10 4 (stDrawing [(0, 0)])
    [] ⟨"w2", ⟨"fw2", "tw"⟩, none⟩ (by decide) (by simp [allUids]) (by unfold NoEmptyBuckets; decide)
  exact ⟨h.1, h.2.1, h.2.2.1, h.2.2.2.2.1 rfl, h.2.2.2.2.2⟩

/-! Drag-loop lemmas. -/

theorem segsProperlyCross_eq_true {p1 p2 q1 q2 : P2}
    (h1 : cross2 p1 p2 q1 * cross2 p1 p2 q2 < 0)
    (h2 : cross2 q1 q2 p1 * cross2 q1 q2 p2 < 0) :
    segsProperlyCross p1 p2 q1 q2 = true := by
  simp [segsProperlyCross, h1, h2]

theorem segsProperlyCross_eq_false_left {p1 p2 q1 q2 : P2}
    (h1 : ¬ cross2 p1 p2 q1 * cross2 p1 p2 q2 < 0) :
    segsProperlyCross p1 p2 q1 q2 = false := by
  simp [segsProperlyCross, h1]

theorem segsProperlyCross_eq_false_right {p1 p2 q1 q2 : P2}
    (h2 : ¬ cross2 q1 q2 p1 * cross2 q1 q2 p2 < 0) :
    segsProperlyCross p1 p2 q1 q2 = false := by
  simp [segsProperlyCross, h2]

theorem numToAdd_pos (m : DrawModel) (a b : P2)
    (hsp1 : 0 < m.sp.1) (hsp2 : 0 < m.sp.2)
    (h : ¬ ((axisDists m a b).1 ≤ m.sp.1 ∧ (axisDists m a b).2 ≤ m.sp.2)) :
    1 ≤ numToAdd m a b := by
  rcases not_and_or.1 h with h1 | h2
  · have hx : m.sp.1 < (axisDists m a b).1 := not_le.1 h1
    have h1q : (1 : ℚ) ≤ (axisDists m a b).1 / m.sp.1 := (one_le_div hsp1).2 hx.le
    have hfl : (1 : ℤ) ≤ ⌊(axisDists m a b).1 / m.sp.1⌋ :=
      Int.le_floor.2 (by exact_mod_cast h1q)
    refine le_max_of_le_left ?_
    omega
  · have hy : m.sp.2 < (axisDists m a b).2 := not_le.1 h2
    have h2q : (1 : ℚ) ≤ (axisDists m a b).2 / m.sp.2 := (one_le_div hsp2).2 hy.le
    have hfl : (1 : ℤ) ≤ ⌊(axisDists m a b).2 / m.sp.2⌋ :=
      Int.le_floor.2 (by exact_mod_cast h2q)
    refine le_max_of_le_right ?_
    omega

theorem sampledTo_ne_nil {m : DrawModel} {pts : List P2} {target : P2}
    (h : 1 ≤ numToAdd m (pts.getLastD z2) target) :
    sampledTo m pts target ≠ [] := by
  simp only [sampledTo]
  intro hc
  rw [List.map_eq_nil_iff, List.range_eq_nil] at hc
  omega

/-- C7 counterexample: with spacing threshold 1/4, a sample whose world
delta from the last recorded point is (1/10, 1/2) is less than the threshold
along the x axis, yet `mouseDragDrawCallback` records it (the buffer grows
from 1 to 3 points), because the code only discards samples that are within
the threshold along *both* axes. -/
theorem C7_counterexample :
    (axisDists mQuarter ((1 : ℚ), (1 : ℚ)) (11/10, 3/2)).1 < mQuarter.sp.1 ∧
    (mouseDragDrawCallback mQuarter (stDrawing [(1, 1)]) (11/10, 3/2)
      (1, 1)).buffer.length = 3 ∧
    (stDrawing [(1, 1)]).buffer.length = 1 := by
  have haxis : axisDists mQuarter ((1 : ℚ), (1 : ℚ)) (11/10, 3/2) =
      (1/10, 1/2) := by
    norm_num [axisDists, sub3, dot3, mQuarter]
  have hsp : mQuarter.sp = (1/4, 1/4) := by
    norm_num [mQuarter, subPixelSpacing]
  refine ⟨?_, ?_, rfl⟩
  · rw [haxis, hsp]
    norm_num
  · have hlastp : (stDrawing [(1, 1)]).buffer.getLastD z2 =
        ((1 : ℚ), (1 : ℚ)) := rfl
    have hguard : ¬ ((axisDists mQuarter ((1 : ℚ), (1 : ℚ))
        (11/10, 3/2)).1 ≤ mQuarter.sp.1 ∧
        (axisDists mQuarter ((1 : ℚ), (1 : ℚ)) (11/10, 3/2)).2 ≤
          mQuarter.sp.2) := by
      rw [haxis, hsp]
      norm_num
    have hn : numToAdd mQuarter ((1 : ℚ), (1 : ℚ)) (11/10, 3/2) = 2 := by
      simp only [numToAdd]
      rw [haxis, hsp]
      have h1 : ⌊((1 : ℚ)/10) / (1/4)⌋ = 0 := by norm_num
      have h2 : ⌊((1 : ℚ)/2) / (1/4)⌋ = 2 := by norm_num
      show max ⌊((1 : ℚ)/10) / (1/4)⌋.toNat ⌊((1 : ℚ)/2) / (1/4)⌋.toNat = 2
      rw [h1, h2]
      rfl
    have hcross : findCrossingIndexDuringCreate
        (stDrawing [(1, 1)]).buffer (11/10, 3/2) (1, 1) = none := rfl
    simp only [mouseDragDrawCallback, hcross]
    rw [hlastp, if_neg hguard]
    simp only [addPointsTo, sampledTo]
    rw [hlastp, hn]
    simp only [List.length_append, List.length_map, List.length_range]
    rfl

/-- C7 amended: during Drawing, a motion sample is discarded (the buffer and
state left unchanged) exactly when its world delta from the last recorded
point is at most the spacing threshold along *both* axes; otherwise (and
with no self-crossing) at least one sampled point is appended.  The spec
scenario holds: with spacing (1,1) and subPixelResolution 4, a (0.1, 0.1)mm
delta is discarded and the following (0.3, 0.3)mm delta records exactly one
point. -/
theorem C7_amended_drag_spacing (m : DrawModel) (st : DrawState)
    (cur lastPt : P2) (hsp1 : 0 < m.sp.1) (hsp2 : 0 < m.sp.2) :
    ((axisDists m (st.buffer.getLastD z2) cur).1 ≤ m.sp.1 →
      (axisDists m (st.buffer.getLastD z2) cur).2 ≤ m.sp.2 →
      mouseDragDrawCallback m st cur lastPt = st) ∧
    (¬ ((axisDists m (st.buffer.getLastD z2) cur).1 ≤ m.sp.1 ∧
        (axisDists m (st.buffer.getLastD z2) cur).2 ≤ m.sp.2) →
      findCrossingIndexDuringCreate st.buffer cur lastPt = none →
      (mouseDragDrawCallback m st cur lastPt).buffer =
          st.buffer ++ sampledTo m st.buffer cur ∧
        sampledTo m st.buffer cur ≠ []) ∧
    mouseDragDrawCallback mQuarter (stDrawing [(1, 1)]) (11/10, 11/10)
        (1, 1) = stDrawing [(1, 1)] ∧
    (mouseDragDrawCallback mQuarter (stDrawing [(1, 1)]) (13/10, 13/10)
        (11/10, 11/10)).buffer = [(1, 1), (13/10, 13/10)] := by
  refine ⟨?_, ?_, ?_, ?_⟩
  · intro h1 h2
    simp only [mouseDragDrawCallback, if_pos (And.intro h1 h2)]
  · intro hguard hcross
    simp only [mouseDragDrawCallback, hcross, if_neg hguard]
    exact ⟨rfl, sampledTo_ne_nil (numToAdd_pos m _ cur hsp1 hsp2 hguard)⟩
  · have hlastp : (stDrawing [(1, 1)]).buffer.getLastD z2 =
        ((1 : ℚ), (1 : ℚ)) := rfl
    have haxis : axisDists mQuarter ((1 : ℚ), (1 : ℚ)) (11/10, 11/10) =
        (1/10, 1/10) := by
      norm_num [axisDists, sub3, dot3, mQuarter]
    have hsp : mQuarter.sp = (1/4, 1/4) := by
      norm_num [mQuarter, subPixelSpacing]
    have hguard : (axisDists mQuarter ((1 : ℚ), (1 : ℚ))
        (11/10, 11/10)).1 ≤ mQuarter.sp.1 ∧
        (axisDists mQuarter ((1 : ℚ), (1 : ℚ)) (11/10, 11/10)).2 ≤
          mQuarter.sp.2 := by
      rw [haxis, hsp]
      norm_num
    simp only [mouseDragDrawCallback]
    rw [hlastp, if_pos hguard]
  · have hlastp : (stDrawing [(1, 1)]).buffer.getLastD z2 =
        ((1 : ℚ), (1 : ℚ)) := rfl
    have haxis : axisDists mQuarter ((1 : ℚ), (1 : ℚ)) (13/10, 13/10) =
        (3/10, 3/10) := by
      norm_num [axisDists, sub3, dot3, mQuarter]
    have hsp : mQuarter.sp = (1/4, 1/4) := by
      norm_num [mQuarter, subPixelSpacing]
    have hguard : ¬ ((axisDists mQuarter ((1 : ℚ), (1 : ℚ))
        (13/10, 13/10)).1 ≤ mQuarter.sp.1 ∧
        (axisDists mQuarter ((1 : ℚ), (1 : ℚ)) (13/10, 13/10)).2 ≤
          mQuarter.sp.2) := by
      rw [haxis, hsp]
      norm_num
    have hn : numToAdd mQuarter ((1 : ℚ), (1 : ℚ)) (13/10, 13/10) = 1 := by
      simp only [numToAdd]
      rw [haxis, hsp]
      have h1 : ⌊((3 : ℚ)/10) / (1/4)⌋ = 1 := by norm_num
      show max ⌊((3 : ℚ)/10) / (1/4)⌋.toNat ⌊((3 : ℚ)/10) / (1/4)⌋.toNat = 1
      rw [h1]
      rfl
    have hcross : findCrossingIndexDuringCreate
        (stDrawing [(1, 1)]).buffer (13/10, 13/10) (11/10, 11/10) =
        none := rfl
    simp only [mouseDragDrawCallback, hcross]
    rw [hlastp, if_neg hguard]
    simp only [addPointsTo, sampledTo]
    rw [hlastp, hn]
    show [((1 : ℚ), (1 : ℚ))] ++
        (List.range 1).map
          (fun i => interp2 ((1 : ℚ), (1 : ℚ)) (13/10, 13/10) 1 (i + 1)) =
      [(1, 1), (13/10, 13/10)]
    simp only [List.range_succ, List.range_zero, List.nil_append,
      List.map_cons, List.map_nil]
    norm_num [interp2]

/-- Witness for C7 amended at a concrete state: the guard hypotheses hold
for the unit-spacing model and a sample well beyond the threshold. -/
theorem C7_amended_drag_spacing_witness :
    ((axisDists mUnit ((stDrawing [(1, 1)]).buffer.getLastD z2) (7, 9)).1 ≤
        mUnit.sp.1 →
      (axisDists mUnit ((stDrawing [(1, 1)]).buffer.getLastD z2) (7, 9)).2 ≤
        mUnit.sp.2 →
      mouseDragDrawCallback mUnit (stDrawing [(1, 1)]) (7, 9) (1, 1) =
        stDrawing [(1, 1)]) ∧
    mouseDragDrawCallback mQuarter (stDrawing [(1, 1)]) (11/10, 11/10)
        (1, 1) = stDrawing [(1, 1)] ∧
    (mouseDragDrawCallback mQuarter (stDrawing [(1, 1)]) (13/10, 13/10)
        (11/10, 11/10)).buffer = [(1, 1), (13/10, 13/10)] := by
  have h := C7_amended_drag_spacing mUnit (stDrawing [(1, 1)]) (7, 9) (1, 1)
    (by norm_num [mUnit]) (by norm_num [mUnit])
  have h4 := C7_amended_drag_spacing mQuarter (stDrawing [(1, 1)]) (7, 9)
    (1, 1) (by norm_num [mQuarter, subPixelSpacing])
    (by norm_num [mQuarter, subPixelSpacing])
  exact ⟨h.1, h4.2.2.1, h4.2.2.2⟩

theorem dropLast_append_ne {α : Type} (l1 : List α) {l2 : List α}
    (h : l2 ≠ []) : (l1 ++ l2).dropLast = l1 ++ l2.dropLast := by
  rcases List.eq_nil_or_concat l2 with rfl | ⟨ys, y, rfl⟩
  · exact absurd rfl h
  · rw [List.concat_eq_append, ← List.append_assoc, List.dropLast_concat,
      List.dropLast_concat]

/-- C1 amended: on a mid-draw crossing at segment index `k`, the tool
truncates the buffer by inserting the sampled points up to the crossing
point and discarding everything recorded *before* index `k` (the loop from
the crossing onward is kept), then completes the contour as closed and
immediately enters the closed-contour edit state; `isDrawing` is never
active past the crossing. -/
theorem C1_amended_auto_close (m : DrawModel) (st : DrawState) (k : ℕ)
    (hk : k ≤ st.buffer.length)
    (hne : sampledTo m st.buffer (st.buffer.getD k z2) ≠ []) :
    truncateOnCross m st.buffer k =
      st.buffer.drop k ++
        (sampledTo m st.buffer (st.buffer.getD k z2)).dropLast ∧
    (applyCreateOnCross m st k).isDrawing = false ∧
    (applyCreateOnCross m st k).isEditingClosed = true ∧
    (applyCreateOnCross m st k).isOpenContour = false ∧
    (applyCreateOnCross m st k).buffer = [] := by
  refine ⟨?_, rfl, rfl, rfl, rfl⟩
  rw [truncateOnCross, addPointsTo, dropLast_append_ne _ hne,
    List.drop_append_of_le_length hk]

/-- Witness for C1 amended at a concrete square-with-tail buffer, crossing
index 1 with two sampled closing points. -/
theorem C1_amended_auto_close_witness :
    truncateOnCross mUnit (stDrawing [(1, 1), (3, 1), (3, 3), (1, 3)]).buffer
        1 =
      (stDrawing [(1, 1), (3, 1), (3, 3), (1, 3)]).buffer.drop 1 ++
        (sampledTo mUnit (stDrawing [(1, 1), (3, 1), (3, 3), (1, 3)]).buffer
          ((stDrawing [(1, 1), (3, 1), (3, 3), (1, 3)]).buffer.getD 1
            z2)).dropLast ∧
    (applyCreateOnCross mUnit (stDrawing [(1, 1), (3, 1), (3, 3), (1, 3)])
      1).isDrawing = false ∧
    (applyCreateOnCross mUnit (stDrawing [(1, 1), (3, 1), (3, 3), (1, 3)])
      1).isEditingClosed = true ∧
    (applyCreateOnCross mUnit (stDrawing [(1, 1), (3, 1), (3, 3), (1, 3)])
      1).isOpenContour = false ∧
    (applyCreateOnCross mUnit (stDrawing [(1, 1), (3, 1), (3, 3), (1, 3)])
      1).buffer = [] := by
  refine C1_amended_auto_close mUnit (stDrawing [(1, 1), (3, 1), (3, 3), (1, 3)])
    1 (by decide) ?_
  have hn : numToAdd mUnit ((1 : ℚ), (3 : ℚ)) ((3 : ℚ), (1 : ℚ)) = 2 := by
    have haxis : axisDists mUnit ((1 : ℚ), (3 : ℚ)) ((3 : ℚ), (1 : ℚ)) =
        (2, 2) := by
      norm_num [axisDists, sub3, dot3, mUnit]
    simp only [numToAdd]
    rw [haxis]
    rw [show mUnit.sp = ((1 : ℚ), (1 : ℚ)) from rfl]
    have h1 : ⌊(2 : ℚ) / 1⌋ = 2 := by norm_num
    show max ⌊(2 : ℚ) / 1⌋.toNat ⌊(2 : ℚ) / 1⌋.toNat = 2
    rw [h1]
    rfl
  refine sampledTo_ne_nil ?_
  rw [show (stDrawing [(1, 1), (3, 1), (3, 3), (1, 3)]).buffer.getLastD z2 =
    ((1 : ℚ), (3 : ℚ)) from rfl]
  rw [show (stDrawing [(1, 1), (3, 1), (3, 3), (1, 3)]).buffer.getD 1 z2 =
    ((3 : ℚ), (1 : ℚ)) from rfl]
  rw [hn]
  omega

/-- C1 counterexample: in the drag from (1,4) to (2,1) over `ptsCross`, a
genuine self-crossing is found at segment index 1, yet the point recorded
at index 0 — which the claim's "discard everything recorded after index k"
policy would retain — is absent both from the truncated buffer and from the
final committed polyline: the code discards everything recorded *before*
the crossing index. -/
theorem C1_counterexample :
    findCrossingIndexDuringCreate ptsCross (2, 1) (1, 4) = some 1 ∧
    ptsCross.getD 0 z2 = (-1, 2) ∧
    ((-1 : ℚ), (2 : ℚ)) ∈ ptsCross.take 2 ∧
    ((-1 : ℚ), (2 : ℚ)) ∉ truncateOnCross mUnit ptsCross 1 ∧
    ((-1 : ℚ), (2 : ℚ), (0 : ℚ)) ∉
      (applyCreateOnCross mUnit (stDrawing ptsCross) 1).polyline := by
  have c0 : segsProperlyCross ((-1 : ℚ), (2 : ℚ)) ((1 : ℚ), (2 : ℚ))
      ((2 : ℚ), (1 : ℚ)) ((1 : ℚ), (4 : ℚ)) = false :=
    segsProperlyCross_eq_false_right (by norm_num [cross2])
  have c1 : segsProperlyCross ((1 : ℚ), (2 : ℚ)) ((3 : ℚ), (2 : ℚ))
      ((2 : ℚ), (1 : ℚ)) ((1 : ℚ), (4 : ℚ)) = true :=
    segsProperlyCross_eq_true (by norm_num [cross2]) (by norm_num [cross2])
  have hn2 : numToAdd mUnit ((1 : ℚ), (4 : ℚ)) ((1 : ℚ), (2 : ℚ)) = 2 := by
    have haxis : axisDists mUnit ((1 : ℚ), (4 : ℚ)) ((1 : ℚ), (2 : ℚ)) =
        (0, 2) := by
      norm_num [axisDists, sub3, dot3, mUnit]
    simp only [numToAdd]
    rw [haxis, show mUnit.sp = ((1 : ℚ), (1 : ℚ)) from rfl]
    have h1 : ⌊(0 : ℚ) / 1⌋ = 0 := by norm_num
    have h2 : ⌊(2 : ℚ) / 1⌋ = 2 := by norm_num
    show max ⌊(0 : ℚ) / 1⌋.toNat ⌊(2 : ℚ) / 1⌋.toNat = 2
    rw [h1, h2]
    rfl
  have hs2 : sampledTo mUnit ptsCross (ptsCross.getD 1 z2) =
      [(1, 3), (1, 2)] := by
    simp only [sampledTo]
    rw [show ptsCross.getLastD z2 = ((1 : ℚ), (4 : ℚ)) from rfl,
      show ptsCross.getD 1 z2 = ((1 : ℚ), (2 : ℚ)) from rfl, hn2]
    show (List.range 2).map
        (fun i => interp2 ((1 : ℚ), (4 : ℚ)) ((1 : ℚ), (2 : ℚ)) 2 (i + 1)) =
      [(1, 3), (1, 2)]
    simp only [List.range_succ, List.range_zero, List.nil_append,
      List.map_append, List.map_cons, List.map_nil]
    norm_num [interp2]
  have e1 : truncateOnCross mUnit ptsCross 1 =
      [(1, 2), (3, 2), (3, 4), (1, 4), (1, 3)] := by
    simp only [truncateOnCross, addPointsTo]
    rw [hs2]
    rfl
  have d0 : segsProperlyCross ((3 : ℚ), (2 : ℚ)) ((3 : ℚ), (4 : ℚ))
      ((1 : ℚ), (2 : ℚ)) ((1 : ℚ), (3 : ℚ)) = false :=
    segsProperlyCross_eq_false_left (by norm_num [cross2])
  have d1 : segsProperlyCross ((3 : ℚ), (4 : ℚ)) ((1 : ℚ), (4 : ℚ))
      ((1 : ℚ), (2 : ℚ)) ((1 : ℚ), (3 : ℚ)) = false :=
    segsProperlyCross_eq_false_left (by norm_num [cross2])
  have hrc : removeCrossedLinesOnCompleteDraw
      [(1, 2), (3, 2), (3, 4), (1, 4), (1, 3)] =
      [(1, 2), (3, 2), (3, 4), (1, 4), (1, 3)] := by
    have hfi2 : getFirstIntersectionWithPolyline
        (([(1, 2), (3, 2), (3, 4), (1, 4), (1, 3)] : List P2).dropLast.drop 1)
        (([(1, 2), (3, 2), (3, 4), (1, 4), (1, 3)] : List P2).headD z2)
        (([(1, 2), (3, 2), (3, 4), (1, 4), (1, 3)] : List P2).getLastD z2) =
        none := by
      show getFirstIntersectionWithPolyline
        [((3 : ℚ), (2 : ℚ)), ((3 : ℚ), (4 : ℚ)), ((1 : ℚ), (4 : ℚ))]
        ((1 : ℚ), (2 : ℚ)) ((1 : ℚ), (3 : ℚ)) = none
      simp only [getFirstIntersectionWithPolyline, firstCrossIdx]
      rw [show List.zip
        ([((3 : ℚ), (2 : ℚ)), ((3 : ℚ), (4 : ℚ)), ((1 : ℚ), (4 : ℚ))] : List P2)
        ([((3 : ℚ), (2 : ℚ)), ((3 : ℚ), (4 : ℚ)), ((1 : ℚ), (4 : ℚ))] :
          List P2).tail =
        [(((3 : ℚ), (2 : ℚ)), ((3 : ℚ), (4 : ℚ))),
         (((3 : ℚ), (4 : ℚ)), ((1 : ℚ), (4 : ℚ)))] from rfl]
      simp [List.findIdx?_cons, d0, d1]
    simp only [removeCrossedLinesOnCompleteDraw, hfi2]
  have hn3 : numToAdd mUnit ((1 : ℚ), (3 : ℚ)) ((1 : ℚ), (2 : ℚ)) = 1 := by
    have haxis : axisDists mUnit ((1 : ℚ), (3 : ℚ)) ((1 : ℚ), (2 : ℚ)) =
        (0, 1) := by
      norm_num [axisDists, sub3, dot3, mUnit]
    simp only [numToAdd]
    rw [haxis, show mUnit.sp = ((1 : ℚ), (1 : ℚ)) from rfl]
    have h1 : ⌊(0 : ℚ) / 1⌋ = 0 := by norm_num
    have h2 : ⌊(1 : ℚ) / 1⌋ = 1 := by norm_num
    show max ⌊(0 : ℚ) / 1⌋.toNat ⌊(1 : ℚ) / 1⌋.toNat = 1
    rw [h1, h2]
    rfl
  have hs3 : sampledTo mUnit [(1, 2), (3, 2), (3, 4), (1, 4), (1, 3)]
      (([(1, 2), (3, 2), (3, 4), (1, 4), (1, 3)] : List P2).headD z2) =
      [(1, 2)] := by
    simp only [sampledTo]
    rw [show ([(1, 2), (3, 2), (3, 4), (1, 4), (1, 3)] :
        List P2).getLastD z2 = ((1 : ℚ), (3 : ℚ)) from rfl,
      show ([(1, 2), (3, 2), (3, 4), (1, 4), (1, 3)] : List P2).headD z2 =
        ((1 : ℚ), (2 : ℚ)) from rfl, hn3]
    show (List.range 1).map
        (fun i => interp2 ((1 : ℚ), (3 : ℚ)) ((1 : ℚ), (2 : ℚ)) 1 (i + 1)) =
      [(1, 2)]
    simp only [List.range_succ, List.range_zero, List.nil_append,
      List.map_cons, List.map_nil]
    norm_num [interp2]
  have e2 : (applyCreateOnCross mUnit (stDrawing ptsCross) 1).polyline =
      [((1 : ℚ), (2 : ℚ), (0 : ℚ)), ((3 : ℚ), (2 : ℚ), (0 : ℚ)),
       ((3 : ℚ), (4 : ℚ), (0 : ℚ)), ((1 : ℚ), (4 : ℚ), (0 : ℚ)),
       ((1 : ℚ), (3 : ℚ), (0 : ℚ))] := by
    simp only [applyCreateOnCross, completeDrawClosedContour]
    rw [show (stDrawing ptsCross).buffer = ptsCross from rfl, e1, hrc]
    simp only [addPointsTo]
    rw [hs3]
    rfl
  refine ⟨?_, rfl, by decide, ?_, ?_⟩
  · simp only [findCrossingIndexDuringCreate, getFirstIntersectionWithPolyline,
      firstCrossIdx]
    rw [show List.zip ptsCross.dropLast ptsCross.dropLast.tail =
      [(((-1 : ℚ), (2 : ℚ)), ((1 : ℚ), (2 : ℚ))),
       (((1 : ℚ), (2 : ℚ)), ((3 : ℚ), (2 : ℚ))),
       (((3 : ℚ), (2 : ℚ)), ((3 : ℚ), (4 : ℚ)))] from rfl]
    simp [List.findIdx?_cons, c0, c1]
  · rw [e1]
    decide
  · rw [e2]
    decide

/-! Interpolation and sampling lemmas for the contour invariants. -/

theorem interp2_zero (a b : P2) (n : ℕ) : interp2 a b n 0 = a := by
  simp [interp2]

theorem interp2_last (a b : P2) {n : ℕ} (hn : n ≠ 0) : interp2 a b n n = b := by
  have hq : ((n : ℚ) / n) = 1 := div_self (Nat.cast_ne_zero.2 hn)
  simp only [interp2, hq, one_mul]
  exact Prod.ext (by ring) (by ring)

theorem interp2_inj {a b : P2} (hab : a ≠ b) {n : ℕ} (hn : n ≠ 0)
    {i j : ℕ} (hij : i ≠ j) : interp2 a b n i ≠ interp2 a b n j := by
  intro h
  have hn' : (n : ℚ) ≠ 0 := Nat.cast_ne_zero.2 hn
  have hfrac : ((i : ℚ) / n) ≠ ((j : ℚ) / n) := by
    intro e
    apply hij
    field_simp [hn'] at e
    exact_mod_cast e
  have h1 := congrArg Prod.fst h
  have h2 := congrArg Prod.snd h
  simp only [interp2] at h1 h2
  have d1 : b.1 - a.1 = 0 := by
    by_contra hd
    exact hfrac (mul_right_cancel₀ hd (by linarith))
  have d2 : b.2 - a.2 = 0 := by
    by_contra hd
    exact hfrac (mul_right_cancel₀ hd (by linarith))
  exact hab (Prod.ext (by linarith) (by linarith)).symm

theorem numToAdd_self (m : DrawModel) (p : P2) : numToAdd m p p = 0 := by
  simp [numToAdd, axisDists, sub3, dot3]

theorem ne_of_numToAdd_pos {m : DrawModel} {a b : P2}
    (h : numToAdd m a b ≠ 0) : a ≠ b := by
  intro e
  subst e
  exact h (numToAdd_self m a)

/-! Spacing facts about `axisDists` and `numToAdd`, and the separation
invariant (`BigSteps`) that `mouseDragDrawCallback` maintains on the
recorded buffer. -/

theorem axisDists_self (m : DrawModel) (p : P2) : axisDists m p p = (0, 0) := by
  simp [axisDists, sub3, dot3]

theorem axisDists_comm (m : DrawModel) (p q : P2) :
    axisDists m p q = axisDists m q p := by
  have h : ∀ u v d : P3, dot3 (sub3 u v) d = dot3 u d - dot3 v d := by
    intro u v d
    simp only [dot3, sub3]
    ring
  simp only [axisDists, h]
  rw [abs_sub_comm, abs_sub_comm (dot3 (m.c2w q) m.yDir)]

theorem ne_of_bigStep {m : DrawModel} (hsp1 : 0 < m.sp.1) (hsp2 : 0 < m.sp.2)
    {p q : P2}
    (h : m.sp.1 ≤ (axisDists m p q).1 ∨ m.sp.2 ≤ (axisDists m p q).2) :
    p ≠ q := by
  intro e
  subst e
  rw [axisDists_self] at h
  rcases h with h | h
  · exact absurd h (not_le.2 hsp1)
  · exact absurd h (not_le.2 hsp2)

theorem axisDists_lt_of_numToAdd_zero (m : DrawModel) (hsp1 : 0 < m.sp.1)
    (hsp2 : 0 < m.sp.2) (a b : P2) (h : numToAdd m a b = 0) :
    (axisDists m a b).1 < m.sp.1 ∧ (axisDists m a b).2 < m.sp.2 := by
  have hd : numToAdd m a b = max (⌊(axisDists m a b).1 / m.sp.1⌋.toNat)
      (⌊(axisDists m a b).2 / m.sp.2⌋.toNat) := rfl
  rw [hd] at h
  rcases Nat.max_eq_zero_iff.1 h with ⟨h1, h2⟩
  have hf1 : ⌊(axisDists m a b).1 / m.sp.1⌋ ≤ 0 := by omega
  have hf2 : ⌊(axisDists m a b).2 / m.sp.2⌋ ≤ 0 := by omega
  constructor
  · have hlt : (axisDists m a b).1 / m.sp.1 < 1 := by
      have hx := Int.lt_floor_add_one ((axisDists m a b).1 / m.sp.1)
      have hc : ((⌊(axisDists m a b).1 / m.sp.1⌋ : ℤ) : ℚ) ≤ 0 := by
        exact_mod_cast hf1
      linarith
    exact (div_lt_one hsp1).1 hlt
  · have hlt : (axisDists m a b).2 / m.sp.2 < 1 := by
      have hx := Int.lt_floor_add_one ((axisDists m a b).2 / m.sp.2)
      have hc : ((⌊(axisDists m a b).2 / m.sp.2⌋ : ℤ) : ℚ) ≤ 0 := by
        exact_mod_cast hf2
      linarith
    exact (div_lt_one hsp2).1 hlt

theorem spacing_le_step (m : DrawModel) (hsp1 : 0 < m.sp.1)
    (hsp2 : 0 < m.sp.2) (a b : P2) (hn : numToAdd m a b ≠ 0) :
    m.sp.1 ≤ (axisDists m a b).1 / (numToAdd m a b : ℚ) ∨
      m.sp.2 ≤ (axisDists m a b).2 / (numToAdd m a b : ℚ) := by
  have hd : numToAdd m a b = max (⌊(axisDists m a b).1 / m.sp.1⌋.toNat)
      (⌊(axisDists m a b).2 / m.sp.2⌋.toNat) := rfl
  have hnpos : (0 : ℚ) < (numToAdd m a b : ℚ) := by
    exact_mod_cast Nat.pos_of_ne_zero hn
  rcases le_total (⌊(axisDists m a b).2 / m.sp.2⌋.toNat)
      (⌊(axisDists m a b).1 / m.sp.1⌋.toNat) with hmx | hmx
  · left
    have hn1 : numToAdd m a b = ⌊(axisDists m a b).1 / m.sp.1⌋.toNat := by
      rw [hd, max_eq_left hmx]
    have hfl : ((numToAdd m a b : ℕ) : ℤ) ≤ ⌊(axisDists m a b).1 / m.sp.1⌋ := by
      rw [hn1]
      omega
    have hfl' : ((numToAdd m a b : ℕ) : ℚ) ≤ (axisDists m a b).1 / m.sp.1 := by
      have hq := Int.le_floor.1 hfl
      exact_mod_cast hq
    rw [le_div_iff hnpos]
    have hmul := (le_div_iff hsp1).1 hfl'
    linarith
  · right
    have hn2 : numToAdd m a b = ⌊(axisDists m a b).2 / m.sp.2⌋.toNat := by
      rw [hd, max_eq_right hmx]
    have hfl : ((numToAdd m a b : ℕ) : ℤ) ≤ ⌊(axisDists m a b).2 / m.sp.2⌋ := by
      rw [hn2]
      omega
    have hfl' : ((numToAdd m a b : ℕ) : ℚ) ≤ (axisDists m a b).2 / m.sp.2 := by
      have hq := Int.le_floor.1 hfl
      exact_mod_cast hq
    rw [le_div_iff hnpos]
    have hmul := (le_div_iff hsp2).1 hfl'
    linarith

theorem dot3_lerp (wa wb d : P3) (r s : ℚ) :
    dot3 (sub3 (wa.1 + r * (wb.1 - wa.1), wa.2.1 + r * (wb.2.1 - wa.2.1),
        wa.2.2 + r * (wb.2.2 - wa.2.2))
      (wa.1 + s * (wb.1 - wa.1), wa.2.1 + s * (wb.2.1 - wa.2.1),
        wa.2.2 + s * (wb.2.2 - wa.2.2))) d =
      (r - s) * dot3 (sub3 wb wa) d := by
  simp only [dot3, sub3]
  ring

theorem axisDists_interp_succ (m : DrawModel) (haff : AffineC2W m.c2w)
    (a b : P2) {n : ℕ} (hn : n ≠ 0) (i : ℕ) :
    axisDists m (interp2 a b n i) (interp2 a b n (i + 1)) =
      ((axisDists m a b).1 / n, (axisDists m a b).2 / n) := by
  have hi1 : m.c2w (interp2 a b n i) =
      ((m.c2w a).1 + ((i : ℚ) / n) * ((m.c2w b).1 - (m.c2w a).1),
        (m.c2w a).2.1 + ((i : ℚ) / n) * ((m.c2w b).2.1 - (m.c2w a).2.1),
        (m.c2w a).2.2 + ((i : ℚ) / n) * ((m.c2w b).2.2 - (m.c2w a).2.2)) :=
    haff a b ((i : ℚ) / n)
  have hi2 : m.c2w (interp2 a b n (i + 1)) =
      ((m.c2w a).1 + (((i + 1 : ℕ) : ℚ) / n) * ((m.c2w b).1 - (m.c2w a).1),
        (m.c2w a).2.1 + (((i + 1 : ℕ) : ℚ) / n) * ((m.c2w b).2.1 - (m.c2w a).2.1),
        (m.c2w a).2.2 + (((i + 1 : ℕ) : ℚ) / n) * ((m.c2w b).2.2 - (m.c2w a).2.2)) :=
    haff a b (((i + 1 : ℕ) : ℚ) / n)
  have hr : (((i + 1 : ℕ) : ℚ) / n) - ((i : ℚ) / n) = 1 / n := by
    rw [div_sub_div_same]
    congr 1
    push_cast
    ring
  have hkey : ∀ d : P3,
      dot3 (sub3 (m.c2w (interp2 a b n (i + 1))) (m.c2w (interp2 a b n i))) d =
        (1 / (n : ℚ)) * dot3 (sub3 (m.c2w b) (m.c2w a)) d := by
    intro d
    rw [hi1, hi2, dot3_lerp, hr]
  have h1n : (0 : ℚ) ≤ 1 / (n : ℚ) := by positivity
  have hd1 : (axisDists m (interp2 a b n i) (interp2 a b n (i + 1))).1 =
      (axisDists m a b).1 / n := by
    show |dot3 (sub3 (m.c2w (interp2 a b n (i + 1)))
        (m.c2w (interp2 a b n i))) m.xDir| =
      |dot3 (sub3 (m.c2w b) (m.c2w a)) m.xDir| / (n : ℚ)
    rw [hkey m.xDir, abs_mul, abs_of_nonneg h1n, one_div_mul_eq_div]
  have hd2 : (axisDists m (interp2 a b n i) (interp2 a b n (i + 1))).2 =
      (axisDists m a b).2 / n := by
    show |dot3 (sub3 (m.c2w (interp2 a b n (i + 1)))
        (m.c2w (interp2 a b n i))) m.yDir| =
      |dot3 (sub3 (m.c2w b) (m.c2w a)) m.yDir| / (n : ℚ)
    rw [hkey m.yDir, abs_mul, abs_of_nonneg h1n, one_div_mul_eq_div]
  have hpair : axisDists m (interp2 a b n i) (interp2 a b n (i + 1)) =
      ((axisDists m (interp2 a b n i) (interp2 a b n (i + 1))).1,
        (axisDists m (interp2 a b n i) (interp2 a b n (i + 1))).2) := rfl
  rw [hpair, hd1, hd2]

theorem bigStep_interp (m : DrawModel) (hsp1 : 0 < m.sp.1) (hsp2 : 0 < m.sp.2)
    (haff : AffineC2W m.c2w) (a b : P2) {n : ℕ} (hn : n ≠ 0)
    (he : n = numToAdd m a b) (i : ℕ) :
    m.sp.1 ≤ (axisDists m (interp2 a b n i) (interp2 a b n (i + 1))).1 ∨
      m.sp.2 ≤ (axisDists m (interp2 a b n i) (interp2 a b n (i + 1))).2 := by
  subst he
  rw [axisDists_interp_succ m haff a b hn i]
  simpa using spacing_le_step m hsp1 hsp2 a b hn

theorem bigSteps_addPointsTo (m : DrawModel) (hsp1 : 0 < m.sp.1)
    (hsp2 : 0 < m.sp.2) (haff : AffineC2W m.c2w) (pts : List P2) (cur : P2)
    (hbig : BigSteps m pts)
    (hg : ¬ ((axisDists m (pts.getLastD z2) cur).1 ≤ m.sp.1 ∧
        (axisDists m (pts.getLastD z2) cur).2 ≤ m.sp.2)) :
    BigSteps m (addPointsTo m pts cur) := by
  have hn : numToAdd m (pts.getLastD z2) cur ≠ 0 := by
    have := numToAdd_pos m (pts.getLastD z2) cur hsp1 hsp2 hg
    omega
  have hs : sampledTo m pts cur =
      (List.range (numToAdd m (pts.getLastD z2) cur)).map
        (fun i => interp2 (pts.getLastD z2) cur
          (numToAdd m (pts.getLastD z2) cur) (i + 1)) := rfl
  rw [addPointsTo, hs]
  rw [BigSteps] at hbig ⊢
  rw [List.chain'_append]
  refine ⟨hbig, ?_, ?_⟩
  · rw [List.chain'_map]
    cases hn0 : numToAdd m (pts.getLastD z2) cur with
    | zero => exact absurd hn0 hn
    | succ n' =>
      refine (List.chain'_range_succ _ n').2 ?_
      intro j hj
      exact bigStep_interp m hsp1 hsp2 haff (pts.getLastD z2) cur
        (Nat.succ_ne_zero n') hn0.symm (j + 1)
  · intro x hx y hy
    cases hn0 : numToAdd m (pts.getLastD z2) cur with
    | zero => exact absurd hn0 hn
    | succ n' =>
      have hxe : x = pts.getLastD z2 := by
        rw [List.getLastD_eq_getLast?, Option.mem_def.1 hx]
        rfl
      rw [hn0, List.range_succ_eq_map, List.map_cons, List.head?_cons] at hy
      have hye : y = interp2 (pts.getLastD z2) cur (n' + 1) (0 + 1) := by
        have hme := Option.mem_def.1 hy
        exact Option.some.inj hme.symm
      have hstep := bigStep_interp m hsp1 hsp2 haff (pts.getLastD z2) cur
        (Nat.succ_ne_zero n') hn0.symm 0
      rw [interp2_zero] at hstep
      rw [hxe, hye]
      exact hstep

theorem bigSteps_drag (m : DrawModel) (hsp1 : 0 < m.sp.1) (hsp2 : 0 < m.sp.2)
    (haff : AffineC2W m.c2w) (st : DrawState) (cur lastPt : P2)
    (h : BigSteps m st.buffer) :
    BigSteps m (mouseDragDrawCallback m st cur lastPt).buffer := by
  by_cases hguard : (axisDists m (st.buffer.getLastD z2) cur).1 ≤ m.sp.1 ∧
      (axisDists m (st.buffer.getLastD z2) cur).2 ≤ m.sp.2
  · simp only [mouseDragDrawCallback, if_pos hguard]
    exact h
  · cases hc : findCrossingIndexDuringCreate st.buffer cur lastPt with
    | some k =>
      simp only [mouseDragDrawCallback, hc, if_neg hguard, applyCreateOnCross,
        completeDrawClosedContour]
      rw [BigSteps]
      exact List.chain'_nil
    | none =>
      simp only [mouseDragDrawCallback, hc, if_neg hguard]
      exact bigSteps_addPointsTo m hsp1 hsp2 haff st.buffer cur h hguard

theorem bigSteps_dragRun (m : DrawModel) (hsp1 : 0 < m.sp.1)
    (hsp2 : 0 < m.sp.2) (haff : AffineC2W m.c2w) (p0 : P2)
    (samples : List (P2 × P2)) :
    BigSteps m (dragRun m p0 samples).buffer := by
  induction samples using List.reverseRecOn with
  | nil =>
    show BigSteps m [p0]
    rw [BigSteps]
    exact List.chain'_singleton _
  | append_singleton l x ih =>
    have he : dragRun m p0 (l ++ [x]) =
        mouseDragDrawCallback m (dragRun m p0 l) x.1 x.2 := by
      rw [dragRun, dragRun, List.foldl_append, List.foldl_cons, List.foldl_nil]
    rw [he]
    exact bigSteps_drag m hsp1 hsp2 haff (dragRun m p0 l) x.1 x.2 ih

/-- Closing a loop-recorded buffer (appending sampled points back to the
first point, then popping the duplicated closing point) yields a polyline
with no two consecutive coincident points and distinct first/last points.
The hypotheses are positive sub-pixel spacing and the spacing separation
(`BigSteps`) that `mouseDragDrawCallback` maintains between consecutive
recorded points. -/
theorem closeBuffer_wf (m : DrawModel) (pts : List P2)
    (hsp1 : 0 < m.sp.1) (hsp2 : 0 < m.sp.2) (hne : pts ≠ [])
    (hbig : BigSteps m pts) :
    ((addPointsTo m pts (pts.headD z2)).dropLast).Chain' (· ≠ ·) ∧
    (2 ≤ ((addPointsTo m pts (pts.headD z2)).dropLast).length →
      ((addPointsTo m pts (pts.headD z2)).dropLast).headD z2 ≠
        ((addPointsTo m pts (pts.headD z2)).dropLast).getLastD z2) := by
  have hchain : pts.Chain' (· ≠ ·) := by
    rw [BigSteps] at hbig
    exact hbig.imp fun a b hab => ne_of_bigStep hsp1 hsp2 hab
  have hsdef : sampledTo m pts (pts.headD z2) =
      (List.range (numToAdd m (pts.getLastD z2) (pts.headD z2))).map
        (fun i => interp2 (pts.getLastD z2) (pts.headD z2)
          (numToAdd m (pts.getLastD z2) (pts.headD z2)) (i + 1)) := rfl
  cases hn : numToAdd m (pts.getLastD z2) (pts.headD z2) with
  | zero =>
    have hs : sampledTo m pts (pts.headD z2) = [] := by
      rw [hsdef, hn]
      rfl
    rw [addPointsTo, hs, List.append_nil]
    have hsplit : pts.dropLast ++ [pts.getLast hne] = pts :=
      List.dropLast_append_getLast hne
    have hchd : pts.dropLast.Chain' (· ≠ ·) := by
      have h' : (pts.dropLast ++ [pts.getLast hne]).Chain' (· ≠ ·) := by
        rw [hsplit]
        exact hchain
      exact (List.chain'_append.1 h').1
    refine ⟨hchd, ?_⟩
    intro h2
    have hqne : pts.dropLast ≠ [] := by
      intro e
      rw [e] at h2
      simp at h2
    have hh : pts.dropLast.headD z2 = pts.headD z2 := by
      conv_rhs => rw [← hsplit]
      rw [List.headD_eq_head?, List.headD_eq_head?,
        List.head?_append_of_ne_nil _ hqne]
    have hgl : pts.getLast hne = pts.getLastD z2 := by
      rw [List.getLastD_eq_getLast?, List.getLast?_eq_getLast _ hne]
      rfl
    have hb' : (pts.dropLast ++ [pts.getLast hne]).Chain' (fun p q =>
        m.sp.1 ≤ (axisDists m p q).1 ∨ m.sp.2 ≤ (axisDists m p q).2) := by
      rw [hsplit]
      rw [BigSteps] at hbig
      exact hbig
    have hj := (List.chain'_append.1 hb').2.2
    have hmx : pts.dropLast.getLastD z2 ∈ pts.dropLast.getLast? := by
      rw [Option.mem_def, List.getLast?_eq_getLast _ hqne,
        List.getLastD_eq_getLast?, List.getLast?_eq_getLast _ hqne]
      rfl
    have hmy : pts.getLast hne ∈ [pts.getLast hne].head? := by
      rw [Option.mem_def]
      rfl
    have hlink : m.sp.1 ≤
        (axisDists m (pts.dropLast.getLastD z2) (pts.getLast hne)).1 ∨
        m.sp.2 ≤
        (axisDists m (pts.dropLast.getLastD z2) (pts.getLast hne)).2 :=
      hj _ hmx _ hmy
    intro e
    have hql : pts.dropLast.getLastD z2 = pts.headD z2 := e.symm.trans hh
    have hlt := axisDists_lt_of_numToAdd_zero m hsp1 hsp2 (pts.getLastD z2)
      (pts.headD z2) hn
    rw [hql, hgl, axisDists_comm] at hlink
    rcases hlink with hl | hl
    · exact absurd hl (not_le.2 hlt.1)
    · exact absurd hl (not_le.2 hlt.2)
  | succ n' =>
    have hn0 : numToAdd m (pts.getLastD z2) (pts.headD z2) ≠ 0 := by
      rw [hn]
      exact Nat.succ_ne_zero n'
    have hab : pts.getLastD z2 ≠ pts.headD z2 := ne_of_numToAdd_pos hn0
    have hpts : pts ≠ [] := hne
    have hflast : interp2 (pts.getLastD z2) (pts.headD z2) (n' + 1)
        (n' + 1) = pts.headD z2 :=
      interp2_last _ _ (Nat.succ_ne_zero n')
    have hs : sampledTo m pts (pts.headD z2) =
        (List.range n').map
          (fun i => interp2 (pts.getLastD z2) (pts.headD z2) (n' + 1) (i + 1))
          ++ [pts.headD z2] := by
      rw [hsdef, hn, List.range_succ, List.map_append, List.map_cons,
        List.map_nil, hflast]
    rw [addPointsTo, hs, ← List.append_assoc, List.dropLast_concat]
    constructor
    · rw [List.chain'_append]
      refine ⟨hchain, ((List.pairwise_map).2 ?_).chain', ?_⟩
      · refine (List.pairwise_lt_range n').imp ?_
        intro i j hij
        exact interp2_inj hab (Nat.succ_ne_zero n') (by omega)
      · intro x hx y hy
        have hx' : x = pts.getLastD z2 := by
          rw [List.getLastD_eq_getLast?, Option.mem_def.1 hx]
          rfl
        cases n'0 : n' with
        | zero =>
          rw [n'0] at hy
          simp at hy
        | succ k =>
          rw [n'0, List.range_succ_eq_map, List.map_cons, List.head?_cons] at hy
          have hy' : y = interp2 (pts.getLastD z2) (pts.headD z2)
              (n' + 1) (0 + 1) := by
            have hme := Option.mem_def.1 hy
            rw [← n'0] at hme
            exact Option.some.inj hme.symm
          rw [hx', hy']
          have h01 : interp2 (pts.getLastD z2) (pts.headD z2) (n' + 1) 0 ≠
              interp2 (pts.getLastD z2) (pts.headD z2) (n' + 1) (0 + 1) :=
            interp2_inj hab (Nat.succ_ne_zero n') (by omega)
          have h0 := interp2_zero (pts.getLastD z2) (pts.headD z2) (n' + 1)
          rw [h0] at h01
          exact h01
    · intro h2
      have hhead : (pts ++ (List.range n').map
          (fun i => interp2 (pts.getLastD z2) (pts.headD z2) (n' + 1)
            (i + 1))).headD z2 = pts.headD z2 := by
        rw [List.headD_eq_head?, List.head?_append_of_ne_nil _ hpts,
          ← List.headD_eq_head?]
      rw [hhead]
      cases n'0 : n' with
      | zero =>
        simp only [List.range_zero, List.map_nil, List.append_nil]
        exact Ne.symm hab
      | succ k =>
        rw [List.range_succ, List.map_append, List.map_cons, List.map_nil,
          List.getLastD_eq_getLast?, ← List.append_assoc,
          List.getLast?_concat]
        simp only [Option.getD_some]
        rw [n'0] at hflast
        have hne : interp2 (pts.getLastD z2) (pts.headD z2) (k + 1 + 1)
            (k + 1 + 1) ≠ interp2 (pts.getLastD z2) (pts.headD z2)
            (k + 1 + 1) (k + 1) :=
          interp2_inj hab (Nat.succ_ne_zero (k + 1)) (by omega)
        rw [hflast] at hne
        exact hne

theorem chain'_take {α : Type} {R : α → α → Prop} {l : List α}
    (h : l.Chain' R) (n : ℕ) : (l.take n).Chain' R := by
  have h' : (l.take n ++ l.drop n).Chain' R := by
    rw [List.take_append_drop]
    exact h
  exact (List.chain'_append.1 h').1

theorem removeCrossedLines_bigSteps (m : DrawModel) {pts : List P2}
    (h : BigSteps m pts) :
    BigSteps m (removeCrossedLinesOnCompleteDraw pts) := by
  rw [BigSteps] at h ⊢
  rw [removeCrossedLinesOnCompleteDraw]
  split
  · exact chain'_take h _
  · exact h

theorem removeCrossedLines_ne_nil {pts : List P2} (h : pts ≠ []) :
    removeCrossedLinesOnCompleteDraw pts ≠ [] := by
  rw [removeCrossedLinesOnCompleteDraw]
  split
  next s hs =>
    rw [getFirstIntersectionWithPolyline] at hs
    rcases Option.map_eq_some'.1 hs with ⟨i, hi, hsi⟩
    intro e
    have hlen : (pts.take s.2).length = 0 := by
      rw [e]
      rfl
    rw [List.length_take, ← hsi] at hlen
    have hsnd : ((i, i + 1) : ℕ × ℕ).2 = i + 1 := rfl
    rw [hsnd] at hlen
    have hp : 0 < pts.length := List.length_pos.2 h
    omega
  next => exact h

/-- The closed-completion polyline of any buffer satisfying the loop's
spacing separation is consecutive-distinct with distinct endpoints (in
canvas space), including the degenerate empty buffer. -/
theorem closedPoly_wf (m : DrawModel) (hsp1 : 0 < m.sp.1) (hsp2 : 0 < m.sp.2)
    (B : List P2) (hbig : BigSteps m B) :
    ((addPointsTo m (removeCrossedLinesOnCompleteDraw B)
        ((removeCrossedLinesOnCompleteDraw B).headD z2)).dropLast).Chain'
      (· ≠ ·) ∧
    (2 ≤ ((addPointsTo m (removeCrossedLinesOnCompleteDraw B)
        ((removeCrossedLinesOnCompleteDraw B).headD z2)).dropLast).length →
      ((addPointsTo m (removeCrossedLinesOnCompleteDraw B)
        ((removeCrossedLinesOnCompleteDraw B).headD z2)).dropLast).headD z2 ≠
        ((addPointsTo m (removeCrossedLinesOnCompleteDraw B)
          ((removeCrossedLinesOnCompleteDraw B).headD z2)).dropLast).getLastD
          z2) := by
  by_cases hB : B = []
  · subst hB
    have he : removeCrossedLinesOnCompleteDraw ([] : List P2) = [] := rfl
    rw [he]
    have hadd : addPointsTo m ([] : List P2) (([] : List P2).headD z2) = [] := by
      show ([] : List P2) ++ sampledTo m [] (([] : List P2).headD z2) = []
      rw [List.nil_append]
      show (List.range (numToAdd m z2 (([] : List P2).headD z2))).map
        (fun i => interp2 z2 (([] : List P2).headD z2)
          (numToAdd m z2 (([] : List P2).headD z2)) (i + 1)) = []
      rw [show (([] : List P2).headD z2) = z2 from rfl, numToAdd_self]
      rfl
    rw [hadd]
    refine ⟨List.chain'_nil, ?_⟩
    intro h2
    simp at h2
  · exact closeBuffer_wf m (removeCrossedLinesOnCompleteDraw B) hsp1 hsp2
      (removeCrossedLines_ne_nil hB) (removeCrossedLines_bigSteps m hbig)

/-- C8: for any drawing session of the loop itself (a mouse-down activation
followed by arbitrary drag samples), a completed closed contour has
`isOpenContour = false` and a stored polyline with no two consecutive
coincident points and no duplicated first/last point; a completed open
contour has `isOpenContour = true` and handle points equal to exactly the
first and last stored polyline points.  The hypotheses are the viewport
facts of `canvasToWorld`: positive sub-pixel spacing along each axis and an
affine, injective plane embedding. -/
theorem C8_contour_invariants (m : DrawModel) (p0 : P2)
    (samples : List (P2 × P2)) (st : DrawState) (hsp1 : 0 < m.sp.1)
    (hsp2 : 0 < m.sp.2) (haff : AffineC2W m.c2w)
    (hinj : Function.Injective m.c2w) (hst : st = dragRun m p0 samples) :
    ((completeDrawClosedContour m st).isOpenContour = false ∧
      ((completeDrawClosedContour m st).polyline).Chain' (· ≠ ·) ∧
      (2 ≤ (completeDrawClosedContour m st).polyline.length →
        (completeDrawClosedContour m st).polyline.headD z3 ≠
          (completeDrawClosedContour m st).polyline.getLastD z3)) ∧
    ((completeDrawOpenContour m st).isOpenContour = true ∧
      (completeDrawOpenContour m st).handles =
        [(completeDrawOpenContour m st).polyline.headD z3,
         (completeDrawOpenContour m st).polyline.getLastD z3]) := by
  have hbig : BigSteps m st.buffer := by
    rw [hst]
    exact bigSteps_dragRun m hsp1 hsp2 haff p0 samples
  have hbase := closedPoly_wf m hsp1 hsp2 st.buffer hbig
  have hpoly : (completeDrawClosedContour m st).polyline =
      ((addPointsTo m (removeCrossedLinesOnCompleteDraw st.buffer)
        ((removeCrossedLinesOnCompleteDraw st.buffer).headD z2)).dropLast).map
        m.c2w := rfl
  refine ⟨⟨rfl, ?_, ?_⟩, rfl, rfl⟩
  · rw [hpoly]
    exact (List.chain'_map m.c2w).2
      (hbase.1.imp fun a b hxy e => hxy (hinj e))
  · intro h2
    rw [hpoly] at h2 ⊢
    set L := (addPointsTo m (removeCrossedLinesOnCompleteDraw st.buffer)
      ((removeCrossedLinesOnCompleteDraw st.buffer).headD z2)).dropLast
      with hLdef
    have hlen : 2 ≤ L.length := by
      rw [List.length_map] at h2
      exact h2
    have hLne : L ≠ [] := by
      intro e
      rw [e] at hlen
      simp at hlen
    obtain ⟨v, hv⟩ : ∃ v, L.head? = some v := by
      cases hL : L.head? with
      | none => exact absurd (List.head?_eq_none_iff.1 hL) hLne
      | some v => exact ⟨v, rfl⟩
    obtain ⟨w, hw⟩ : ∃ w, L.getLast? = some w := by
      cases hL : L.getLast? with
      | none => exact absurd (List.getLast?_eq_none_iff.1 hL) hLne
      | some w => exact ⟨w, rfl⟩
    have hheads : (L.map m.c2w).headD z3 = m.c2w v := by
      rw [List.headD_eq_head?, List.head?_map, hv]
      rfl
    have hlasts : (L.map m.c2w).getLastD z3 = m.c2w w := by
      rw [List.getLastD_eq_getLast?, List.getLast?_map, hw]
      rfl
    have hheadv : L.headD z2 = v := by
      rw [List.headD_eq_head?, hv]
      rfl
    have hlastw : L.getLastD z2 = w := by
      rw [List.getLastD_eq_getLast?, hw]
      rfl
    rw [hheads, hlasts]
    intro e
    refine hbase.2 hlen ?_
    rw [hheadv, hlastw]
    exact hinj e

/-- Witness for C8 on the unit viewport: the session activated at (1,1)
and dragged to (3,1) and then (3,3). -/
theorem C8_contour_invariants_witness :
    ((completeDrawClosedContour mUnit
        (dragRun mUnit (1, 1)
          [((3, 1), (1, 1)), ((3, 3), (3, 1))])).isOpenContour = false ∧
      ((completeDrawClosedContour mUnit
        (dragRun mUnit (1, 1)
          [((3, 1), (1, 1)), ((3, 3), (3, 1))])).polyline).Chain' (· ≠ ·) ∧
      (2 ≤ (completeDrawClosedContour mUnit
          (dragRun mUnit (1, 1)
            [((3, 1), (1, 1)), ((3, 3), (3, 1))])).polyline.length →
        (completeDrawClosedContour mUnit
          (dragRun mUnit (1, 1)
            [((3, 1), (1, 1)), ((3, 3), (3, 1))])).polyline.headD z3 ≠
          (completeDrawClosedContour mUnit
            (dragRun mUnit (1, 1)
              [((3, 1), (1, 1)), ((3, 3), (3, 1))])).polyline.getLastD z3)) ∧
    ((completeDrawOpenContour mUnit
        (dragRun mUnit (1, 1)
          [((3, 1), (1, 1)), ((3, 3), (3, 1))])).isOpenContour = true ∧
      (completeDrawOpenContour mUnit
          (dragRun mUnit (1, 1)
            [((3, 1), (1, 1)), ((3, 3), (3, 1))])).handles =
        [(completeDrawOpenContour mUnit
            (dragRun mUnit (1, 1)
              [((3, 1), (1, 1)), ((3, 3), (3, 1))])).polyline.headD z3,
         (completeDrawOpenContour mUnit
            (dragRun mUnit (1, 1)
              [((3, 1), (1, 1)), ((3, 3), (3, 1))])).polyline.getLastD z3]) := by
  refine C8_contour_invariants mUnit (1, 1) [((3, 1), (1, 1)), ((3, 3), (3, 1))]
    (dragRun mUnit (1, 1) [((3, 1), (1, 1)), ((3, 3), (3, 1))])
    (by decide) (by decide) ?_ ?_ rfl
  · intro a b s
    show ((a.1 + s * (b.1 - a.1), a.2 + s * (b.2 - a.2), (0 : ℚ)) : P3) =
      (a.1 + s * (b.1 - a.1), a.2 + s * (b.2 - a.2), 0 + s * (0 - 0))
    have h3 : (0 : ℚ) + s * (0 - 0) = 0 := by ring
    rw [h3]
  · intro p q h
    have h1 : p.1 = q.1 := congrArg (fun r : P3 => r.1) h
    have h2 : p.2 = q.2 := congrArg (fun r : P3 => r.2.1) h
    exact Prod.ext h1 h2

/-- C10: the rectangle attributes computed by `drawRect` are invariant under
swapping the two corner points, with `x`/`y` the componentwise minima and
`width`/`height` the absolute coordinate differences. -/
theorem C10_drawRect_corner_swap (s e : P2) (opts : RectOpts) :
    drawRectAttrs s e opts = drawRectAttrs e s opts ∧
    (drawRectAttrs s e opts).x = min s.1 e.1 ∧
    (drawRectAttrs s e opts).y = min s.2 e.2 ∧
    (drawRectAttrs s e opts).width = |s.1 - e.1| ∧
    (drawRectAttrs s e opts).height = |s.2 - e.2| := by
  refine ⟨?_, rfl, rfl, rfl, rfl⟩
  simp [drawRectAttrs, min_comm, abs_sub_comm]

end CS3D
